import Mathlib

/-!
Verification development for `scripts/generate-openresponses-fixtures.py`:
a JSON-Schema sampler, event assembler and fixture writer.

The Python program is shallowly embedded:
* JSON values are the inductive `Value` (JSON numbers appear as integers in
  this corpus, so they are embedded as `Int`).
* Python dicts are insertion-ordered association lists; `aset` replaces an
  existing key in place (keeping its position) or appends, matching Python
  3.7+ dict semantics.
* File paths are lists of components; `resolve_ref` joins a plain relative
  file name onto the base directory, `sparent` is `Path.parent`.
* The mutable module-level `SAMPLE_CACHE` becomes explicit state (`St`)
  threaded through the sampler; `St.log` additionally records every
  assignment `SAMPLE_CACHE[ref_path] = value` in execution order, so that
  temporal claims about the cache can be stated.  `SCHEMA_CACHE` is pure
  memoization of the immutable on-disk files and is embedded as a direct
  lookup in the file environment.
* Python exceptions become `Except Err`; the recursion parameter `depth`
  with its guard `depth > 40` is embedded as the remaining fuel
  `41 - depth`, so the source's `depth + 1` is the fuel's predecessor and
  the guard is `fuel = 0`.
-/

inductive Value where
  | null : Value
  | bool : Bool → Value
  | int : Int → Value
  | str : String → Value
  | arr : List Value → Value
  | obj : List (String × Value) → Value
deriving Repr

abbrev SPath := List String

/-- Errors: `ioError` is a referenced schema file that cannot be found or
parsed; the rest are the Python runtime exceptions the script can raise;
`systemExit` is the explicit `SystemExit` carrying the missing type names. -/
inductive Err where
  | ioError : SPath → Err
  | indexError : Err
  | typeError : Err
  | keyError : Err
  | valueError : Err
  | attributeError : Err
  | systemExit : List String → Err
deriving Repr

/-- First-match association-list lookup (Python `d[k]` / `k in d` / `d.get`). -/
def alook {α β : Type} [DecidableEq α] : List (α × β) → α → Option β
  | [], _ => none
  | (k', v) :: r, k => if k' = k then some v else alook r k

/-- Python dict assignment `d[k] = v`: replace in place, else append. -/
def aset {α β : Type} [DecidableEq α] : List (α × β) → α → β → List (α × β)
  | [], k, v => [(k, v)]
  | (k', v') :: r, k, v => if k' = k then (k, v) :: r else (k', v') :: aset r k v

/-- Python `a.update(b)` for dicts: overlay `b`'s members onto `a`. -/
def dictUpdate (a b : List (String × Value)) : List (String × Value) :=
  b.foldl (fun acc kv => aset acc kv.1 kv.2) a

/-- Python truthiness of a JSON value. -/
def pyTruthy : Value → Bool
  | .null => false
  | .bool b => b
  | .int n => n ≠ 0
  | .str s => !s.isEmpty
  | .arr xs => !xs.isEmpty
  | .obj kvs => !kvs.isEmpty

/-- Python `v[0]`. -/
def pySubscript0 : Value → Except Err Value
  | .arr (x :: _) => .ok x
  | .arr [] => .error .indexError
  | .str s =>
    match s.toList with
    | [] => .error .indexError
    | c :: _ => .ok (.str (String.mk [c]))
  | .obj _ => .error .keyError
  | _ => .error .typeError

/-- Python `for x in v` collecting the iterates. -/
def pyIterVals : Value → Except Err (List Value)
  | .arr xs => .ok xs
  | .str s => .ok (s.toList.map (fun c => .str (String.mk [c])))
  | .obj kvs => .ok (kvs.map (fun kv => .str kv.1))
  | _ => .error .typeError

/-- Python iteration producing dict keys; the keys of the constructed object
are strings here, so non-string members are flagged. -/
def pyIterStrings : Value → Except Err (List String)
  | .arr xs => xs.mapM (fun v => match v with | .str s => .ok s | _ => .error .typeError)
  | .str s => .ok (s.toList.map (fun c => String.mk [c]))
  | .obj kvs => .ok (kvs.map (·.1))
  | _ => .error .typeError

/-- Python `int(v)` for the shapes that occur. -/
def pyInt : Value → Except Err Int
  | .int n => .ok n
  | .bool b => .ok (if b then 1 else 0)
  | .str s => match s.toInt? with | some n => .ok n | none => .error .valueError
  | _ => .error .typeError

/-- Python `v > 0`. -/
def pyGtZero : Value → Except Err Bool
  | .int n => .ok (decide (0 < n))
  | .bool b => .ok b
  | _ => .error .typeError

/-- The count used by `range(min_items)` once `min_items > 0` is known. -/
def vToNat : Value → Nat
  | .int n => n.toNat
  | .bool _ => 1
  | _ => 0

/-- Embeds `isinstance(opt, dict) and opt.get("type") == "null"`. -/
def isNullTyped : Value → Bool
  | .obj kvs =>
    match alook kvs "type" with
    | some (.str s) => s = "null"
    | _ => false
  | _ => false

/-- One step of the `allOf` merge accumulator.  `merged` starts as Python
`None` (which is the JSON null), so `merged is None` is `merged = .null`. -/
def allOfStep (merged val : Value) : Value :=
  match merged with
  | .null => val
  | .obj a =>
    match val with
    | .obj b => .obj (dictUpdate a b)
    | _ => .obj a
  | m => m

/-- Embeds `"x" * int(min_length)`. -/
def mkFiller (n : Int) : String := String.mk (List.replicate n.toNat 'x')

/-- The on-disk schema corpus: absolute path to parsed document. -/
abbrev SEnv := List (SPath × Value)

/-- Embeds `load_schema`: read and parse a schema file (memoized through
`SCHEMA_CACHE`, which is observationally a pure lookup since files are
immutable); a file that cannot be found or parsed is a fatal error. -/
def load_schema (env : SEnv) (p : SPath) : Except Err Value :=
  match alook env p with
  | some v => .ok v
  | none => .error (.ioError p)

/-- Embeds `resolve_ref`: `(base_dir / ref).resolve()` for the plain relative file
names used by this corpus. -/
def resolve_ref (ref : String) (base_dir : SPath) : SPath := base_dir ++ [ref]

/-- Embeds `ref_path.parent`. -/
def sparent (p : SPath) : SPath := p.dropLast

/-- Sampler state: the module-level `SAMPLE_CACHE`, plus a write-only log of
every assignment `SAMPLE_CACHE[ref_path] = value` in execution order. -/
structure St where
  cache : List (SPath × Value)
  log : List (SPath × Value)
deriving Repr

def emptySt : St := ⟨[], []⟩

/-- Stateful `mapM` over a list of sub-schemas, threading the sampler state
left to right exactly as the Python loops do. -/
def stateMapM (f : Value → St → Except Err (Value × St)) :
    List Value → St → Except Err (List Value × St)
  | [], st => .ok ([], st)
  | o :: rest, st =>
    match f o st with
    | .error e => .error e
    | .ok (v, st1) =>
      match stateMapM f rest st1 with
      | .error e => .error e
      | .ok (vs, st2) => .ok (v :: vs, st2)

/-- Embeds `props.get(name, {})` for each required name; `props` must be a mapping
for `.get` to exist (`AttributeError` otherwise). -/
def propsSubs (props : Value) (names : List String) : Except Err (List Value) :=
  names.mapM (fun n =>
    match props with
    | .obj pk => .ok ((alook pk n).getD (.obj []))
    | _ => .error .attributeError)

/-- Embeds `sample_from_schema` in fuel formulation: `fuel = 41 - depth`, so the
source's depth guard `depth > 40` is `fuel = 0` and every recursive call at
`depth + 1` runs at the fuel's predecessor.  The branches follow the source's
precedence order exactly: `$ref`, `const`, `enum`, `oneOf`, `anyOf`, `allOf`,
then the `type` dispatch with its fallback. -/
def sampleF (env : SEnv) : Nat → Value → SPath → St → Except Err (Value × St)
  | 0, _, _, st => .ok (.null, st)
  | fuel + 1, schema, base_dir, st =>
    match schema with
    | .obj kvs =>
      match alook kvs "$ref" with
      | some refv =>
        match refv with
        | .str r =>
          let ref_path := resolve_ref r base_dir
          match alook st.cache ref_path with
          | some v => .ok (v, st)
          | none =>
            match load_schema env ref_path with
            | .error e => .error e
            | .ok ref_schema =>
              match sampleF env fuel ref_schema (sparent ref_path) st with
              | .error e => .error e
              | .ok (value, st1) =>
                .ok (value, ⟨aset st1.cache ref_path value, st1.log ++ [(ref_path, value)]⟩)
        | _ => .error .typeError
      | none =>
      match alook kvs "const" with
      | some c => .ok (c, st)
      | none =>
      match alook kvs "enum" with
      | some ev =>
        match pySubscript0 ev with
        | .error e => .error e
        | .ok v => .ok (v, st)
      | none =>
      match alook kvs "oneOf" with
      | some ov =>
        match pyIterVals ov with
        | .error e => .error e
        | .ok options =>
          match options.find? (fun o => !isNullTyped o) with
          | some opt => sampleF env fuel opt base_dir st
          | none => .ok (.null, st)
      | none =>
      match alook kvs "anyOf" with
      | some av =>
        match pyIterVals av with
        | .error e => .error e
        | .ok options =>
          if options.any isNullTyped then .ok (.null, st)
          else
            match pySubscript0 av with
            | .error e => .error e
            | .ok h => sampleF env fuel h base_dir st
      | none =>
      match alook kvs "allOf" with
      | some lv =>
        match pyIterVals lv with
        | .error e => .error e
        | .ok opts =>
          match stateMapM (fun o s => sampleF env fuel o base_dir s) opts st with
          | .error e => .error e
          | .ok (vals, st1) => .ok (vals.foldl allOfStep .null, st1)
      | none =>
        let schema_type : Option String :=
          match alook kvs "type" with
          | some (.str s) => some s
          | _ => none
        if schema_type = some "object" ∨ (alook kvs "properties").isSome then
          let props := (alook kvs "properties").getD (.obj [])
          match pyIterStrings ((alook kvs "required").getD (.arr [])) with
          | .error e => .error e
          | .ok names =>
            match propsSubs props names with
            | .error e => .error e
            | .ok subs =>
              match stateMapM (fun o s => sampleF env fuel o base_dir s) subs st with
              | .error e => .error e
              | .ok (vals, st1) =>
                let o := (names.zip vals).foldl
                  (fun acc nv => aset acc nv.1 nv.2) ([] : List (String × Value))
                if o.isEmpty ∧ pyTruthy ((alook kvs "additionalProperties").getD .null)
                then .ok (.obj [], st1)
                else .ok (.obj o, st1)
        else if schema_type = some "array" then
          let items := (alook kvs "items").getD (.obj [])
          match pyGtZero ((alook kvs "minItems").getD (.int 0)) with
          | .error e => .error e
          | .ok true =>
            match stateMapM (fun o s => sampleF env fuel o base_dir s)
                (List.replicate (vToNat ((alook kvs "minItems").getD (.int 0))) items) st with
            | .error e => .error e
            | .ok (vals, st1) => .ok (.arr vals, st1)
          | .ok false => .ok (.arr [], st)
        else if schema_type = some "string" then
          match alook kvs "default" with
          | some d => .ok (d, st)
          | none =>
            match alook kvs "minLength" with
            | some ml =>
              match pyInt ml with
              | .error e => .error e
              | .ok n => .ok (.str (mkFiller n), st)
            | none => .ok (.str "", st)
        else if schema_type = some "integer" then
          match alook kvs "default" with
          | some d => .ok (d, st)
          | none =>
            match alook kvs "minimum" with
            | some m =>
              match pyInt m with
              | .error e => .error e
              | .ok n => .ok (.int n, st)
            | none => .ok (.int 0, st)
        else if schema_type = some "number" then
          match alook kvs "default" with
          | some d => .ok (d, st)
          | none =>
            match alook kvs "minimum" with
            | some m => .ok (m, st)
            | none => .ok (.int 0, st)
        else if schema_type = some "boolean" then
          match alook kvs "default" with
          | some d => .ok (d, st)
          | none => .ok (.bool false, st)
        else if schema_type = some "null" then
          .ok (.null, st)
        else
          .ok (.obj [], st)
    | v => .ok (v, st)

/-- Embeds `sample_from_schema(schema, base_dir, depth)`: the depth parameter of the
source, translated to remaining fuel `41 - depth`. -/
def sample_from_schema (env : SEnv) (schema : Value) (base_dir : SPath)
    (depth : Nat) (st : St) : Except Err (Value × St) :=
  sampleF env (41 - depth) schema base_dir st

/-- Embeds `ensure_type_field(event, schema)`: synthesize a missing `type` member
from the schema's declared enumeration for its `type` property.  The caller
has already coerced `event` to a mapping; the function returns the (possibly
extended) event. -/
def ensure_type_field (event : Value) (schema : Value) : Except Err Value :=
  match event with
  | .obj ekvs =>
    match alook ekvs "type" with
    | some _ => .ok event
    | none =>
      match schema with
      | .obj skvs =>
        match (alook skvs "properties").getD (.obj []) with
        | .obj pkvs =>
          match (alook pkvs "type").getD (.obj []) with
          | .obj tkvs =>
            match alook tkvs "enum" with
            | some ev =>
              match pySubscript0 ev with
              | .error e => .error e
              | .ok v => .ok (.obj (aset ekvs "type" v))
            | none => .ok event
          | _ => .ok event
        | _ => .error .attributeError
      | _ => .error .attributeError
  | _ => .ok event

/-- Embeds `if not isinstance(event, dict): event = {}`. -/
def coerceDict (v : Value) : Value :=
  match v with
  | .obj _ => v
  | _ => .obj []

/-- The indexing loop of `generate_events`: sample every schema file (in the
sorted discovery order given by `files`), recover the `type` member, and
record the first sampled event for each allow-listed type string
(`dict.setdefault`: first seen wins).  The sample cache is shared across
files, exactly as the module-level `SAMPLE_CACHE` is. -/
def buildIndex (env : SEnv) (allowed : List String) :
    List SPath → List (String × Value) → St →
    Except Err (List (String × Value) × St)
  | [], m, st => .ok (m, st)
  | path :: rest, m, st =>
    match load_schema env path with
    | .error e => .error e
    | .ok schema =>
      match sample_from_schema env schema (sparent path) 0 st with
      | .error e => .error e
      | .ok (event0, st1) =>
        match ensure_type_field (coerceDict event0) schema with
        | .error e => .error e
        | .ok event =>
          let m1 :=
            match event with
            | .obj ekvs =>
              match alook ekvs "type" with
              | some (.str t) =>
                if t ∈ allowed then
                  if (alook m t).isSome then m else m ++ [(t, event)]
                else m
              | _ => m
            | _ => m
          buildIndex env allowed rest m1 st1

/-- The `sequence_number` stamping: the loop `event["sequence_number"] = seq`
with `seq` running 1, 2, 3, … in emission order. -/
def stampSeq (events : List Value) : List Value :=
  events.mapIdx (fun i e =>
    match e with
    | .obj kvs => .obj (aset kvs "sequence_number" (.int (i + 1)))
    | v => v)

/-- Embeds `generate_events()`: index the schema files, fail fatally when an
allow-listed type has no sampled event (`SystemExit` naming the missing
types), then emit the events in allow-list order with sequence numbers. -/
def generate_events (env : SEnv) (files : List SPath) (allowed : List String) :
    Except Err (List Value) :=
  match buildIndex env allowed files [] emptySt with
  | .error e => .error e
  | .ok (m, _) =>
    let missing := allowed.filter (fun t => (alook m t).isNone)
    if missing.isEmpty then
      .ok (stampSeq (allowed.filterMap (fun t => alook m t)))
    else
      .error (.systemExit missing)

/-- JSON string escaping as `json.dumps` produces for the characters that
occur in this corpus. -/
def escChar (c : Char) : String :=
  if c = '"' then "\\\""
  else if c = '\\' then "\\\\"
  else if c = '\n' then "\\n"
  else if c = '\t' then "\\t"
  else if c = '\r' then "\\r"
  else String.mk [c]

def jstr (s : String) : String :=
  "\"" ++ String.join (s.toList.map escChar) ++ "\""

/-- Embeds `json.dumps(event, separators=(",", ":"), sort_keys=True)`: compact,
key-sorted encoding.  Members are rendered first and the rendered pairs are
then sorted by key, which agrees with sorting before rendering because the
sort is stable. -/
def dumps : Value → String
  | .null => "null"
  | .bool true => "true"
  | .bool false => "false"
  | .int n => toString n
  | .str s => jstr s
  | .arr xs =>
    "[" ++ String.intercalate "," (xs.attach.map (fun x => dumps x.1)) ++ "]"
  | .obj kvs =>
    let rendered := kvs.attach.map
      (fun kv => (kv.1.1, jstr kv.1.1 ++ ":" ++ dumps kv.1.2))
    "\x7b" ++ String.intercalate ","
      ((rendered.mergeSort (fun a b => decide (a.1 ≤ b.1))).map (·.2)) ++ "\x7d"
decreasing_by
  · obtain ⟨a, hm⟩ := x
    have h := List.sizeOf_lt_of_mem hm
    simp only [Value.arr.sizeOf_spec]
    omega
  · obtain ⟨⟨a, b⟩, hm⟩ := kv
    have h := List.sizeOf_lt_of_mem hm
    simp only [Prod.mk.sizeOf_spec] at h
    simp only [Value.obj.sizeOf_spec]
    omega

/-- Python `str(v)` as used in the `f"event: {event_type}"` line; the type
member of an emitted event is always a string, the other scalar cases are
included for totality. -/
def pyFStr : Value → String
  | .str s => s
  | .int n => toString n
  | .bool true => "True"
  | .bool false => "False"
  | .null => "None"
  | v => dumps v

/-- The lines of the line-delimited artifact, in emission order. -/
def jsonl_lines (events : List Value) : List String := events.map dumps

/-- The lines the text-streaming loop writes for one event: an
`event: <type>` line when `event.get("type", "")` is truthy, then the
`data:` line, then the blank separator line. -/
def perEventSse (e : Value) : List String :=
  let line := dumps e
  let et : Value :=
    match e with
    | .obj kvs => (alook kvs "type").getD (.str "")
    | _ => .str ""
  (if pyTruthy et then ["event: " ++ pyFStr et] else []) ++ ["data: " ++ line, ""]

/-- The lines of the text-streaming artifact: the per-event records followed
by the terminating `data: [DONE]` record and its blank line. -/
def sse_lines (events : List Value) : List String :=
  (events.map perEventSse).flatten ++ ["data: [DONE]", ""]

/-- The payload of a `data:` line (the line with its `data: ` prefix
stripped), or nothing for any other line. -/
def dataLine? (l : String) : Option String :=
  if ("data: ".toList).isPrefixOf l.toList then some (String.mk (l.toList.drop 6))
  else none

/-- The payloads of the `data:` lines of a line list, in order. -/
def dataLines (ls : List String) : List String := ls.filterMap dataLine?

/-- The `event:` line the text-streaming form writes for one event, when it
writes one: present exactly when the event's `type` member is a non-empty
string. -/
def typeLine (e : Value) : Option String :=
  match e with
  | .obj kvs =>
    match alook kvs "type" with
    | some (.str t) => if t.isEmpty then none else some ("event: " ++ t)
    | _ => none
  | _ => none

/-- Whether an event's `type` member, if present, is a string (true of every
event the assembler emits). -/
def typeOkB (e : Value) : Bool :=
  match e with
  | .obj kvs =>
    match alook kvs "type" with
    | some (.str _) => true
    | none => true
    | _ => false
  | _ => true

/-- Whether a value is the JSON null. -/
def isNullV : Value → Bool
  | .null => true
  | _ => false

/-- The member list of a mapping-shaped value. -/
def objFields : Value → Option (List (String × Value))
  | .obj b => some b
  | _ => none

/-- Declarative description of what the `allOf` accumulator loop computes on
the list of branch results: drop leading nulls; if the first remaining result
is a mapping, overlay every later mapping-shaped result onto it in listed
order; otherwise that first remaining result is the answer and every later
result is discarded; all-null (or empty) lists give null. -/
def mergeResult (vals : List Value) : Value :=
  match vals.dropWhile isNullV with
  | [] => .null
  | v :: rest =>
    match v with
    | .obj a => .obj ((rest.filterMap objFields).foldl dictUpdate a)
    | w => w

/-- A two-file reference cycle: `X.json` references `Y.json` and vice versa. -/
def cyc2Env : SEnv :=
  [(["s", "X.json"], .obj [("$ref", .str "Y.json")]),
   (["s", "Y.json"], .obj [("$ref", .str "X.json")])]

/-- A self-referential schema file: `A.json` is an object schema whose
required member `x` references `A.json` itself. -/
def selfRefContent : Value :=
  .obj [("type", .str "object"),
        ("properties", .obj [("x", .obj [("$ref", .str "A.json")])]),
        ("required", .arr [.str "x"])]

def cycEnvA : SEnv := [(["schemas", "A.json"], selfRefContent)]

/-- The per-node shape conditions under which none of the sampler's partial
operations (`[0]` subscripts, iteration, `int(...)`, `.get` on a non-mapping,
`> 0` comparisons) can raise at this node.  It deliberately excludes the
raising shapes: an empty `enum` list, an empty (or non-list) `anyOf`,
non-list `oneOf`/`allOf`, a non-mapping `properties`, ill-shaped `required`,
and non-integer `minItems`/`minLength`/`minimum`. -/
def wfShape (kvs : List (String × Value)) : Bool :=
  (match alook kvs "$ref" with
   | none => true
   | some (.str _) => true
   | some _ => false) &&
  (match alook kvs "enum" with
   | none => true
   | some (.arr (_ :: _)) => true
   | some (.str s) => !s.isEmpty
   | some _ => false) &&
  (match alook kvs "oneOf" with
   | none => true
   | some (.arr _) => true
   | some _ => false) &&
  (match alook kvs "anyOf" with
   | none => true
   | some (.arr (_ :: _)) => true
   | some _ => false) &&
  (match alook kvs "allOf" with
   | none => true
   | some (.arr _) => true
   | some _ => false) &&
  (match alook kvs "properties" with
   | none => true
   | some (.obj _) => true
   | some _ => false) &&
  (match alook kvs "required" with
   | none => true
   | some (.arr names) =>
     names.all (fun nm => match nm with | .str _ => true | _ => false)
   | some (.str _) => true
   | some (.obj _) => true
   | some _ => false) &&
  (match alook kvs "minItems" with
   | none => true
   | some (.int _) => true
   | some (.bool _) => true
   | some _ => false) &&
  (match alook kvs "minLength" with
   | none => true
   | some (.int _) => true
   | some (.bool _) => true
   | some _ => false) &&
  (match alook kvs "minimum" with
   | none => true
   | some (.int _) => true
   | some (.bool _) => true
   | some _ => false)

mutual
/-- Well-formed-enough schema values: every object node in the tree satisfies
`wfShape`.  Scalars are always fine (the sampler returns them as-is). -/
def wfS : Value → Bool
  | .null => true
  | .bool _ => true
  | .int _ => true
  | .str _ => true
  | .arr xs => wfSList xs
  | .obj kvs => wfShape kvs && wfSPairs kvs

def wfSList : List Value → Bool
  | [] => true
  | x :: xs => wfS x && wfSList xs

def wfSPairs : List (String × Value) → Bool
  | [] => true
  | (_, v) :: r => wfS v && wfSPairs r
end

/-- Every schema document of the corpus is well-formed-enough. -/
def wfEnv (env : SEnv) : Bool := env.all (fun pr => wfS pr.2)

/-- A stateful sampler step that can only fail with a missing-file error. -/
def NoErrF (f : Value → St → Except Err (Value × St)) (l : List Value) : Prop :=
  ∀ o ∈ l, ∀ st, (∃ r st', f o st = .ok (r, st')) ∨ (∃ q, f o st = .error (.ioError q))

/-!
### A reference-semantics machine for the mutable dicts

The value-level sampler above captures the content of each computation, but
Python dicts are heap objects: `SAMPLE_CACHE[ref_path] = value` stores the
same object that is returned, `merged.update(val)` and
`event["sequence_number"] = seq` mutate objects in place, and those
mutations show through every alias.  The machine below makes that explicit:
dicts live in a heap addressed by `Addr`, every occurrence of a dict is a
`ref`, loading a schema file allocates its parse tree once (the
`SCHEMA_CACHE`), and the sample cache binds paths to heap values, so a
mutation of a cached object is visible to every later reader.  Lists,
strings and numbers are immutable in Python and stay structural.
-/

abbrev Addr := Nat

inductive HVal where
  | null : HVal
  | bool : Bool → HVal
  | int : Int → HVal
  | str : String → HVal
  | arr : List HVal → HVal
  | ref : Addr → HVal
deriving Repr

abbrev Heap := List (Addr × List (String × HVal))

/-- Machine state: the heap of dict objects, the allocator, and the two
module-level caches (`SCHEMA_CACHE` mapping a path to its loaded document,
`SAMPLE_CACHE` mapping a path to the sample object produced for it). -/
structure HSt where
  heap : Heap
  next : Addr
  schemaCache : List (SPath × HVal)
  cache : List (SPath × HVal)
deriving Repr

/-- The member list of the dict object at an address. -/
def heapGet (st : HSt) (a : Addr) : List (String × HVal) :=
  (alook st.heap a).getD []

/-- Read one member of the dict object at an address. -/
def heapKey (st : HSt) (a : Addr) (k : String) : Option HVal :=
  alook (heapGet st a) k

/-- Replace the dict object at an address (in-place mutation). -/
def heapSetObj (st : HSt) (a : Addr) (kvs : List (String × HVal)) : HSt :=
  { st with heap := aset st.heap a kvs }

/-- In-place member assignment `d[k] = v` on the dict at an address. -/
def heapWrite (st : HSt) (a : Addr) (k : String) (v : HVal) : HSt :=
  heapSetObj st a (aset (heapGet st a) k v)

/-- Allocate a fresh dict object. -/
def hAlloc (st : HSt) (kvs : List (String × HVal)) : HVal × HSt :=
  (.ref st.next,
   { st with heap := aset st.heap st.next kvs, next := st.next + 1 })

/-- Python `a.update(b)` on member lists of heap dicts. -/
def hDictUpdate (a b : List (String × HVal)) : List (String × HVal) :=
  b.foldl (fun acc kv => aset acc kv.1 kv.2) a

mutual
/-- Allocate a parsed JSON document into the heap: every object node becomes
a fresh dict object, exactly as `json.load` builds fresh dicts. -/
def allocValue : Value → HSt → HVal × HSt
  | .null, st => (.null, st)
  | .bool b, st => (.bool b, st)
  | .int n, st => (.int n, st)
  | .str s, st => (.str s, st)
  | .arr xs, st =>
    let (hs, st1) := allocList xs st
    (.arr hs, st1)
  | .obj kvs, st =>
    let (hkvs, st1) := allocPairs kvs st
    hAlloc st1 hkvs

def allocList : List Value → HSt → List HVal × HSt
  | [], st => ([], st)
  | x :: xs, st =>
    let (h, st1) := allocValue x st
    let (hs, st2) := allocList xs st1
    (h :: hs, st2)

def allocPairs : List (String × Value) → HSt → List (String × HVal) × HSt
  | [], st => ([], st)
  | (k, v) :: r, st =>
    let (h, st1) := allocValue v st
    let (hr, st2) := allocPairs r st1
    ((k, h) :: hr, st2)
end

/-- Heap version of `load_schema`: return the already-loaded document from
`SCHEMA_CACHE`, or parse (allocate) the file once and cache it, so repeated
references share one document object. -/
def load_schemaH (env : SEnv) (p : SPath) (st : HSt) : Except Err (HVal × HSt) :=
  match alook st.schemaCache p with
  | some v => .ok (v, st)
  | none =>
    match alook env p with
    | none => .error (.ioError p)
    | some doc =>
      let (hv, st1) := allocValue doc st
      .ok (hv, { st1 with schemaCache := aset st1.schemaCache p hv })

/-- Python `v[0]` on machine values: a ref is a dict, so subscripting it by
0 is a `KeyError` (JSON dicts have string keys). -/
def pySubscript0H : HVal → Except Err HVal
  | .arr (x :: _) => .ok x
  | .arr [] => .error .indexError
  | .str s =>
    match s.toList with
    | [] => .error .indexError
    | c :: _ => .ok (.str (String.mk [c]))
  | .ref _ => .error .keyError
  | _ => .error .typeError

/-- Python `for x in v` on machine values (a ref iterates its dict's keys). -/
def pyIterValsH (st : HSt) : HVal → Except Err (List HVal)
  | .arr xs => .ok xs
  | .str s => .ok (s.toList.map (fun c => .str (String.mk [c])))
  | .ref a => .ok ((heapGet st a).map (fun kv => .str kv.1))
  | _ => .error .typeError

/-- Python iteration producing the dict keys of the constructed object. -/
def pyIterStringsH (st : HSt) : HVal → Except Err (List String)
  | .arr xs => xs.mapM (fun v => match v with | .str s => .ok s | _ => .error .typeError)
  | .str s => .ok (s.toList.map (fun c => String.mk [c]))
  | .ref a => .ok ((heapGet st a).map (fun kv => kv.1))
  | _ => .error .typeError

/-- Python `int(v)` on machine values. -/
def pyIntH : HVal → Except Err Int
  | .int n => .ok n
  | .bool b => .ok (if b then 1 else 0)
  | .str s => match s.toInt? with | some n => .ok n | none => .error .valueError
  | _ => .error .typeError

/-- Python `v > 0` on machine values. -/
def pyGtZeroH : HVal → Except Err Bool
  | .int n => .ok (decide (0 < n))
  | .bool b => .ok b
  | _ => .error .typeError

/-- The `range(min_items)` count once `min_items > 0` is known. -/
def vToNatH : HVal → Nat
  | .int n => n.toNat
  | .bool _ => 1
  | _ => 0

/-- Python truthiness of a machine value (a ref is truthy when its dict is
non-empty). -/
def pyTruthyH (st : HSt) : HVal → Bool
  | .null => false
  | .bool b => b
  | .int n => n ≠ 0
  | .str s => !s.isEmpty
  | .arr xs => !xs.isEmpty
  | .ref a => !(heapGet st a).isEmpty

/-- Embeds `isinstance(opt, dict) and opt.get("type") == "null"`, reading
the current heap. -/
def isNullTypedH (st : HSt) : HVal → Bool
  | .ref a =>
    match heapKey st a "type" with
    | some (.str s) => s = "null"
    | _ => false
  | _ => false

/-- Stateful `mapM` over sub-schemas, threading the machine state left to
right exactly as the Python loops do. -/
def stateHMapM (f : HVal → HSt → Except Err (HVal × HSt)) :
    List HVal → HSt → Except Err (List HVal × HSt)
  | [], st => .ok ([], st)
  | o :: rest, st =>
    match f o st with
    | .error e => .error e
    | .ok (v, st1) =>
      match stateHMapM f rest st1 with
      | .error e => .error e
      | .ok (vs, st2) => .ok (v :: vs, st2)

/-- The `allOf` loop with in-place merging: sample each branch in order;
the first non-None result is the accumulator, and when both the accumulator
and a later result are dict objects, `merged.update(val)` mutates the
accumulator object in the heap — mutating a cached sample whenever the
accumulator came from a `$ref`. -/
def hAllOfGo (f : HVal → HSt → Except Err (HVal × HSt)) :
    List HVal → HVal → HSt → Except Err (HVal × HSt)
  | [], merged, st => .ok (merged, st)
  | o :: rest, merged, st =>
    match f o st with
    | .error e => .error e
    | .ok (val, st1) =>
      match merged with
      | .null => hAllOfGo f rest val st1
      | .ref a =>
        match val with
        | .ref b =>
          hAllOfGo f rest (.ref a)
            (heapSetObj st1 a (hDictUpdate (heapGet st1 a) (heapGet st1 b)))
        | _ => hAllOfGo f rest (.ref a) st1
      | m => hAllOfGo f rest m st1

/-- The required-members loop of the object branch: for each name,
`props.get(name, {})` (an `AttributeError` when `properties` is present but
not a mapping; a fresh empty dict when the name has no property definition),
sample the sub-schema, and assign under the name. -/
def hObjGo (f : HVal → HSt → Except Err (HVal × HSt)) (propv : Option HVal) :
    List String → List (String × HVal) → HSt →
    Except Err (List (String × HVal) × HSt)
  | [], obj, st => .ok (obj, st)
  | nm :: rest, obj, st =>
    match propv with
    | some (.ref pa) =>
      match alook (heapGet st pa) nm with
      | some w =>
        match f w st with
        | .error e => .error e
        | .ok (v, st1) => hObjGo f propv rest (aset obj nm v) st1
      | none =>
        let (d, st1) := hAlloc st []
        match f d st1 with
        | .error e => .error e
        | .ok (v, st2) => hObjGo f propv rest (aset obj nm v) st2
    | none =>
      let (d, st1) := hAlloc st []
      match f d st1 with
      | .error e => .error e
      | .ok (v, st2) => hObjGo f propv rest (aset obj nm v) st2
    | some _ => .error .attributeError

/-- Embeds `sample_from_schema` on the reference-semantics machine, fuel
formulation as for `sampleF` (`fuel = 41 - depth`).  A dict-shaped schema
node is a `ref`; `const`/`enum`/`default` return aliases into the loaded
document; the `$ref` branch stores the returned object itself in
`SAMPLE_CACHE`; the object, fallback and coercion sites allocate fresh
dicts, as the corresponding `{}` displays do. -/
def hSampleF (env : SEnv) : Nat → HVal → SPath → HSt → Except Err (HVal × HSt)
  | 0, _, _, st => .ok (.null, st)
  | fuel + 1, schema, base_dir, st =>
    match schema with
    | .ref saddr =>
      let kvs := heapGet st saddr
      match alook kvs "$ref" with
      | some refv =>
        match refv with
        | .str r =>
          let ref_path := resolve_ref r base_dir
          match alook st.cache ref_path with
          | some v => .ok (v, st)
          | none =>
            match load_schemaH env ref_path st with
            | .error e => .error e
            | .ok (ref_schema, st1) =>
              match hSampleF env fuel ref_schema (sparent ref_path) st1 with
              | .error e => .error e
              | .ok (value, st2) =>
                .ok (value, { st2 with cache := aset st2.cache ref_path value })
        | _ => .error .typeError
      | none =>
      match alook kvs "const" with
      | some c => .ok (c, st)
      | none =>
      match alook kvs "enum" with
      | some ev =>
        match pySubscript0H ev with
        | .error e => .error e
        | .ok v => .ok (v, st)
      | none =>
      match alook kvs "oneOf" with
      | some ov =>
        match pyIterValsH st ov with
        | .error e => .error e
        | .ok options =>
          match options.find? (fun o => !isNullTypedH st o) with
          | some opt => hSampleF env fuel opt base_dir st
          | none => .ok (.null, st)
      | none =>
      match alook kvs "anyOf" with
      | some av =>
        match pyIterValsH st av with
        | .error e => .error e
        | .ok options =>
          if options.any (isNullTypedH st) then .ok (.null, st)
          else
            match pySubscript0H av with
            | .error e => .error e
            | .ok h0 => hSampleF env fuel h0 base_dir st
      | none =>
      match alook kvs "allOf" with
      | some lv =>
        match pyIterValsH st lv with
        | .error e => .error e
        | .ok opts => hAllOfGo (fun o s0 => hSampleF env fuel o base_dir s0) opts .null st
      | none =>
        let schema_type : Option String :=
          match alook kvs "type" with
          | some (.str s) => some s
          | _ => none
        if schema_type = some "object" ∨ (alook kvs "properties").isSome then
          match pyIterStringsH st ((alook kvs "required").getD (.arr [])) with
          | .error e => .error e
          | .ok names =>
            match hObjGo (fun o s0 => hSampleF env fuel o base_dir s0)
                (alook kvs "properties") names [] st with
            | .error e => .error e
            | .ok (obj, st1) =>
              if obj.isEmpty ∧ pyTruthyH st1 ((alook kvs "additionalProperties").getD .null)
              then
                let (d, st2) := hAlloc st1 []
                .ok (d, st2)
              else
                let (d, st2) := hAlloc st1 obj
                .ok (d, st2)
        else if schema_type = some "array" then
          match pyGtZeroH ((alook kvs "minItems").getD (.int 0)) with
          | .error e => .error e
          | .ok true =>
            let (items, st1) :=
              match alook kvs "items" with
              | some it => (it, st)
              | none => hAlloc st []
            match stateHMapM (fun o s0 => hSampleF env fuel o base_dir s0)
                (List.replicate (vToNatH ((alook kvs "minItems").getD (.int 0))) items) st1 with
            | .error e => .error e
            | .ok (vals, st2) => .ok (.arr vals, st2)
          | .ok false => .ok (.arr [], st)
        else if schema_type = some "string" then
          match alook kvs "default" with
          | some d => .ok (d, st)
          | none =>
            match alook kvs "minLength" with
            | some ml =>
              match pyIntH ml with
              | .error e => .error e
              | .ok n => .ok (.str (mkFiller n), st)
            | none => .ok (.str "", st)
        else if schema_type = some "integer" then
          match alook kvs "default" with
          | some d => .ok (d, st)
          | none =>
            match alook kvs "minimum" with
            | some m =>
              match pyIntH m with
              | .error e => .error e
              | .ok n => .ok (.int n, st)
            | none => .ok (.int 0, st)
        else if schema_type = some "number" then
          match alook kvs "default" with
          | some d => .ok (d, st)
          | none =>
            match alook kvs "minimum" with
            | some m => .ok (m, st)
            | none => .ok (.int 0, st)
        else if schema_type = some "boolean" then
          match alook kvs "default" with
          | some d => .ok (d, st)
          | none => .ok (.bool false, st)
        else if schema_type = some "null" then
          .ok (.null, st)
        else
          let (d, st1) := hAlloc st []
          .ok (d, st1)
    | v => .ok (v, st)

/-- Embeds `ensure_type_field` on the machine: an in-place write of the
`type` member of the event object when it is missing and the schema's
`type` property declares an enumeration. -/
def ensure_type_fieldH (event : HVal) (schema : HVal) (st : HSt) : Except Err HSt :=
  match event with
  | .ref ea =>
    match alook (heapGet st ea) "type" with
    | some _ => .ok st
    | none =>
      match schema with
      | .ref sa =>
        match alook (heapGet st sa) "properties" with
        | some (.ref pa) =>
          match alook (heapGet st pa) "type" with
          | some (.ref ta) =>
            match alook (heapGet st ta) "enum" with
            | some ev =>
              match pySubscript0H ev with
              | .error e => .error e
              | .ok v => .ok (heapWrite st ea "type" v)
            | none => .ok st
          | some _ => .ok st
          | none => .ok st
        | some _ => .error .attributeError
        | none => .ok st
      | _ => .error .attributeError
  | _ => .ok st

/-- The indexing loop of `generate_events` on the machine: the index binds
each type string to the sampled event object itself, so aliasing (and later
mutation) shows through the index. -/
def hBuildIndex (env : SEnv) (allowed : List String) :
    List SPath → List (String × HVal) → HSt →
    Except Err (List (String × HVal) × HSt)
  | [], m, st => .ok (m, st)
  | path :: rest, m, st =>
    match load_schemaH env path st with
    | .error e => .error e
    | .ok (schema, st1) =>
      match hSampleF env 41 schema (sparent path) st1 with
      | .error e => .error e
      | .ok (event0, st2) =>
        let (event, st3) :=
          match event0 with
          | .ref _ => (event0, st2)
          | _ => hAlloc st2 []
        match ensure_type_fieldH event schema st3 with
        | .error e => .error e
        | .ok st4 =>
          let m1 :=
            match event with
            | .ref ea =>
              match heapKey st4 ea "type" with
              | some (.str t) =>
                if t ∈ allowed then
                  if (alook m t).isSome then m else m ++ [(t, event)]
                else m
              | _ => m
            | _ => m
          hBuildIndex env allowed rest m1 st4

/-- The stamping loop `event["sequence_number"] = seq; seq += 1` on the
machine: an in-place write per position, so a dict object emitted at
several positions keeps only the last write.  Emitted events are always
dict objects; a non-ref is left unchanged (unreachable). -/
def hStampFrom (k : Nat) : List HVal → HSt → HSt
  | [], st => st
  | e :: rest, st =>
    match e with
    | .ref a => hStampFrom (k + 1) rest (heapWrite st a "sequence_number" (.int k))
    | _ => hStampFrom (k + 1) rest st

def hStamp (events : List HVal) (st : HSt) : HSt := hStampFrom 1 events st

/-- Embeds `generate_events()` on the machine, starting from the empty heap
and empty caches of a fresh process. -/
def hGenerate_events (env : SEnv) (files : List SPath) (allowed : List String) :
    Except Err (List HVal × HSt) :=
  match hBuildIndex env allowed files [] ⟨[], 0, [], []⟩ with
  | .error e => .error e
  | .ok (m, st) =>
    let missing := allowed.filter (fun t => (alook m t).isNone)
    if missing.isEmpty then
      let events := allowed.filterMap (fun t => alook m t)
      .ok (events, hStamp events st)
    else
      .error (.systemExit missing)

/-- The run of the sampler the C2 aliasing counterexample performs: the
sample for `B.json` is already cached as the dict at address 0 holding
`{"a": 1}`, and the schema at address 5 is
`{"allOf": [{"$ref": "B.json"}, {"type": "object",
"properties": {"c": {"const": 2}}, "required": ["c"]}]}`. -/
def aliasSt0 : HSt :=
  ⟨[(0, [("a", .int 1)]),
    (1, [("$ref", .str "B.json")]),
    (2, [("const", .int 2)]),
    (3, [("c", .ref 2)]),
    (4, [("type", .str "object"), ("properties", .ref 3), ("required", .arr [.str "c"])]),
    (5, [("allOf", .arr [.ref 1, .ref 4])])],
   6, [], [(["schemas", "B.json"], .ref 0)]⟩

/-- The schema corpus of the C5 counterexample: `AStreamingEvent.json` is a
bare reference to `Base.json`, and `BStreamingEvent.json` is an `allOf` of
the same reference with an object schema whose `type` is the constant
`"b"` — so sampling B mutates the cached Base sample that is also event A. -/
def aliasEnv : SEnv :=
  [(["s", "Base.json"],
    .obj [("type", .str "object"),
          ("properties", .obj [("type", .obj [("const", .str "a")])]),
          ("required", .arr [.str "type"])]),
   (["s", "AStreamingEvent.json"], .obj [("$ref", .str "Base.json")]),
   (["s", "BStreamingEvent.json"],
    .obj [("allOf", .arr
      [.obj [("$ref", .str "Base.json")],
       .obj [("type", .str "object"),
             ("properties", .obj [("type", .obj [("const", .str "b")])]),
             ("required", .arr [.str "type"])]])])]

/-- Read an emitted event's member back through the final heap, as the
fixture writer would. -/
def readEventKey (st : HSt) (k : String) (e : HVal) : Option HVal :=
  match e with
  | .ref a => heapKey st a k
  | _ => none

/-- The top-level address of an event object. -/
def addrOf : HVal → Option Addr
  | .ref a => some a
  | _ => none

/-- The `i`-fold nesting `{"x": {"x": … null …}}` that the self-referential
schema's bounded recursion produces. -/
def nestX : Nat → Value
  | 0 => .null
  | k + 1 => .obj [("x", nestX k)]

/-! ### Helper lemmas about the dict operations -/

theorem alook_aset {α β : Type} [DecidableEq α] (l : List (α × β)) (k : α) (v : β) (k' : α) :
    alook (aset l k v) k' = if k = k' then some v else alook l k' := by
  induction l with
  | nil => simp [aset, alook]
  | cons hd tl ih =>
    obtain ⟨k0, v0⟩ := hd
    simp only [aset]
    by_cases h0 : k0 = k
    · subst h0
      by_cases h1 : k0 = k' <;> simp [alook, h1]
    · by_cases h1 : k0 = k'
      · subst h1
        have hkk : ¬(k = k0) := fun h => h0 h.symm
        simp [alook, h0, hkk]
      · simp [alook, h0, h1, ih]

/-! ### Helper lemmas about the heap machine -/

theorem alook_aset_isSome {α β : Type} [DecidableEq α] (l : List (α × β)) (k : α) (v : β)
    (k' : α) (h : (alook l k').isSome) : (alook (aset l k v) k').isSome := by
  rw [alook_aset]
  by_cases hk : k = k'
  · simp [hk]
  · simpa [hk] using h

theorem heapGet_setObj (st : HSt) (a0 : Addr) (m : List (String × HVal)) (a : Addr) :
    heapGet (heapSetObj st a0 m) a = if a = a0 then m else heapGet st a := by
  show (alook (aset st.heap a0 m) a).getD [] = _
  rw [alook_aset]
  by_cases ha : a = a0
  · subst ha; simp
  · rw [if_neg (fun he => ha he.symm), if_neg ha]; rfl

theorem heapKey_write (st : HSt) (a0 : Addr) (k0 : String) (v : HVal) (a : Addr) (k : String) :
    heapKey (heapWrite st a0 k0 v) a k
      = if a = a0 then alook (aset (heapGet st a0) k0 v) k else heapKey st a k := by
  show alook (heapGet (heapSetObj st a0 (aset (heapGet st a0) k0 v)) a) k = _
  rw [heapGet_setObj]
  by_cases ha : a = a0
  · rw [if_pos ha, if_pos ha]
  · rw [if_neg ha, if_neg ha]; rfl

theorem heapKey_write_self (st : HSt) (a : Addr) (k : String) (v : HVal) :
    heapKey (heapWrite st a k v) a k = some v := by
  rw [heapKey_write, if_pos rfl, alook_aset, if_pos rfl]

theorem heapKey_write_other_key (st : HSt) (a0 : Addr) (k0 : String) (v : HVal)
    (a : Addr) (k : String) (hk : k ≠ k0) :
    heapKey (heapWrite st a0 k0 v) a k = heapKey st a k := by
  rw [heapKey_write]
  by_cases ha : a = a0
  · subst ha
    rw [if_pos rfl, alook_aset, if_neg (fun he => hk he.symm)]
    rfl
  · rw [if_neg ha]

mutual
theorem allocValue_st (v : Value) (st : HSt) :
    ((allocValue v st).2).cache = st.cache ∧ ((allocValue v st).2).schemaCache = st.schemaCache := by
  cases v with
  | null => exact ⟨rfl, rfl⟩
  | bool b => exact ⟨rfl, rfl⟩
  | int n => exact ⟨rfl, rfl⟩
  | str s => exact ⟨rfl, rfl⟩
  | arr xs => simpa only [allocValue] using allocList_st xs st
  | obj kvs => simpa only [allocValue, hAlloc] using allocPairs_st kvs st

theorem allocList_st (xs : List Value) (st : HSt) :
    ((allocList xs st).2).cache = st.cache ∧ ((allocList xs st).2).schemaCache = st.schemaCache := by
  cases xs with
  | nil => exact ⟨rfl, rfl⟩
  | cons x r =>
    have h1 := allocValue_st x st
    have h2 := allocList_st r (allocValue x st).2
    simp only [allocList]
    exact ⟨h2.1.trans h1.1, h2.2.trans h1.2⟩

theorem allocPairs_st (kvs : List (String × Value)) (st : HSt) :
    ((allocPairs kvs st).2).cache = st.cache ∧ ((allocPairs kvs st).2).schemaCache = st.schemaCache := by
  cases kvs with
  | nil => exact ⟨rfl, rfl⟩
  | cons kv r =>
    obtain ⟨k, v⟩ := kv
    have h1 := allocValue_st v st
    have h2 := allocPairs_st r (allocValue v st).2
    simp only [allocPairs]
    exact ⟨h2.1.trans h1.1, h2.2.trans h1.2⟩
end

theorem load_schemaH_cache (env : SEnv) (p : SPath) (st : HSt) (hv : HVal) (st1 : HSt)
    (h : load_schemaH env p st = .ok (hv, st1)) : st1.cache = st.cache := by
  unfold load_schemaH at h
  cases hsc : alook st.schemaCache p with
  | some v => simp only [hsc] at h; cases h; rfl
  | none =>
    simp only [hsc] at h
    cases hdoc : alook env p with
    | none => simp only [hdoc] at h; exact Except.noConfusion h
    | some doc =>
      simp only [hdoc] at h
      rcases hav : allocValue doc st with ⟨hv0, st0⟩
      simp only [hav] at h
      cases h
      show st0.cache = st.cache
      have := (allocValue_st doc st).1
      rwa [hav] at this

theorem stateHMapM_cache_mono (f : HVal → HSt → Except Err (HVal × HSt))
    (hf : ∀ o st r st', f o st = .ok (r, st') →
      ∀ p, (alook st.cache p).isSome → (alook st'.cache p).isSome) :
    ∀ (l : List HVal) (st : HSt) (vs : List HVal) (st' : HSt),
      stateHMapM f l st = .ok (vs, st') →
      ∀ p, (alook st.cache p).isSome → (alook st'.cache p).isSome := by
  intro l
  induction l with
  | nil =>
    intro st vs st' h p hp
    simp only [stateHMapM] at h
    cases h
    exact hp
  | cons o rest ih =>
    intro st vs st' h p hp
    simp only [stateHMapM] at h
    cases h1 : f o st with
    | error e => simp only [h1] at h; exact Except.noConfusion h
    | ok q =>
      obtain ⟨v1, st1⟩ := q
      simp only [h1] at h
      cases h2 : stateHMapM f rest st1 with
      | error e => simp only [h2] at h; exact Except.noConfusion h
      | ok q2 =>
        obtain ⟨vs2, st2⟩ := q2
        simp only [h2] at h
        cases h
        exact ih st1 _ _ h2 p (hf o st _ _ h1 p hp)

theorem hAllOfGo_cache_mono (f : HVal → HSt → Except Err (HVal × HSt))
    (hf : ∀ o st r st', f o st = .ok (r, st') →
      ∀ p, (alook st.cache p).isSome → (alook st'.cache p).isSome) :
    ∀ (l : List HVal) (merged : HVal) (st : HSt) (r : HVal) (st' : HSt),
      hAllOfGo f l merged st = .ok (r, st') →
      ∀ p, (alook st.cache p).isSome → (alook st'.cache p).isSome := by
  intro l
  induction l with
  | nil =>
    intro merged st r st' h p hp
    simp only [hAllOfGo] at h
    cases h
    exact hp
  | cons o rest ih =>
    intro merged st r st' h p hp
    simp only [hAllOfGo] at h
    cases h1 : f o st with
    | error e => simp only [h1] at h; exact Except.noConfusion h
    | ok q =>
      obtain ⟨val, st1⟩ := q
      simp only [h1] at h
      have hp1 : (alook st1.cache p).isSome := hf o st _ _ h1 p hp
      cases merged with
      | null => exact ih val st1 r st' h p hp1
      | ref a =>
        cases val with
        | ref b => exact ih (.ref a) _ r st' h p hp1
        | null => exact ih (.ref a) st1 r st' h p hp1
        | bool b2 => exact ih (.ref a) st1 r st' h p hp1
        | int n2 => exact ih (.ref a) st1 r st' h p hp1
        | str s2 => exact ih (.ref a) st1 r st' h p hp1
        | arr xs2 => exact ih (.ref a) st1 r st' h p hp1
      | bool b1 => exact ih _ st1 r st' h p hp1
      | int n1 => exact ih _ st1 r st' h p hp1
      | str s1 => exact ih _ st1 r st' h p hp1
      | arr xs1 => exact ih _ st1 r st' h p hp1

theorem hObjGo_cache_mono (f : HVal → HSt → Except Err (HVal × HSt))
    (hf : ∀ o st r st', f o st = .ok (r, st') →
      ∀ p, (alook st.cache p).isSome → (alook st'.cache p).isSome)
    (propv : Option HVal) :
    ∀ (names : List String) (obj : List (String × HVal)) (st : HSt)
      (r : List (String × HVal)) (st' : HSt),
      hObjGo f propv names obj st = .ok (r, st') →
      ∀ p, (alook st.cache p).isSome → (alook st'.cache p).isSome := by
  intro names
  induction names with
  | nil =>
    intro obj st r st' h p hp
    simp only [hObjGo] at h
    cases h
    exact hp
  | cons nm rest ih =>
    intro obj st r st' h p hp
    simp only [hObjGo] at h
    cases propv with
    | none =>
      simp only [hAlloc] at h
      cases h1 : f (.ref st.next)
          { st with heap := aset st.heap st.next [], next := st.next + 1 } with
      | error e => simp only [h1] at h; exact Except.noConfusion h
      | ok q =>
        obtain ⟨v1, st2⟩ := q
        simp only [h1] at h
        exact ih _ st2 r st' h p (hf _ _ _ _ h1 p hp)
    | some pv =>
      cases pv with
      | ref pa =>
        cases hlk : alook (heapGet st pa) nm with
        | some w =>
          simp only [hlk] at h
          cases h1 : f w st with
          | error e => simp only [h1] at h; exact Except.noConfusion h
          | ok q =>
            obtain ⟨v1, st1⟩ := q
            simp only [h1] at h
            exact ih _ st1 r st' h p (hf _ _ _ _ h1 p hp)
        | none =>
          simp only [hlk, hAlloc] at h
          cases h1 : f (.ref st.next)
              { st with heap := aset st.heap st.next [], next := st.next + 1 } with
          | error e => simp only [h1] at h; exact Except.noConfusion h
          | ok q =>
            obtain ⟨v1, st2⟩ := q
            simp only [h1] at h
            exact ih _ st2 r st' h p (hf _ _ _ _ h1 p hp)
      | null => exact Except.noConfusion h
      | bool b => exact Except.noConfusion h
      | int n => exact Except.noConfusion h
      | str s => exact Except.noConfusion h
      | arr xs => exact Except.noConfusion h

set_option maxHeartbeats 1000000 in
theorem hSampleF_cache_mono (env : SEnv) :
    ∀ (n : Nat) (s : HVal) (b : SPath) (st : HSt) (r : HVal) (st' : HSt),
      hSampleF env n s b st = .ok (r, st') →
      ∀ p, (alook st.cache p).isSome → (alook st'.cache p).isSome := by
  intro n
  induction n with
  | zero =>
    intro s b st r st' h p hp
    simp only [hSampleF] at h
    cases h
    exact hp
  | succ n ih =>
    intro s b st r st' h p hp
    have hrec : ∀ o st0 r0 st0', hSampleF env n o b st0 = .ok (r0, st0') →
        ∀ p0, (alook st0.cache p0).isSome → (alook st0'.cache p0).isSome :=
      fun o st0 r0 st0' h0 p0 hp0 => ih o b st0 r0 st0' h0 p0 hp0
    cases s with
    | null => simp only [hSampleF] at h; cases h; exact hp
    | bool bb => simp only [hSampleF] at h; cases h; exact hp
    | int nn => simp only [hSampleF] at h; cases h; exact hp
    | str ss => simp only [hSampleF] at h; cases h; exact hp
    | arr xs => simp only [hSampleF] at h; cases h; exact hp
    | ref saddr =>
      simp only [hSampleF] at h
      cases href : alook (heapGet st saddr) "$ref" with
      | some refv =>
        simp only [href] at h
        cases refv with
        | str rr =>
          cases hcache : alook st.cache (resolve_ref rr b) with
          | some v0 => simp only [hcache] at h; cases h; exact hp
          | none =>
            simp only [hcache] at h
            cases hload : load_schemaH env (resolve_ref rr b) st with
            | error e => simp only [hload] at h; exact Except.noConfusion h
            | ok q0 =>
              obtain ⟨ref_schema, st1⟩ := q0
              simp only [hload] at h
              cases hrun : hSampleF env n ref_schema (sparent (resolve_ref rr b)) st1 with
              | error e => simp only [hrun] at h; exact Except.noConfusion h
              | ok q =>
                obtain ⟨value, st2⟩ := q
                simp only [hrun] at h
                have hp1 : (alook st1.cache p).isSome := by
                  rw [load_schemaH_cache env _ st _ _ hload]
                  exact hp
                have hp2 := ih ref_schema (sparent (resolve_ref rr b)) st1 value st2 hrun p hp1
                cases h
                exact alook_aset_isSome _ _ _ _ hp2
        | null => exact Except.noConfusion h
        | bool b2 => exact Except.noConfusion h
        | int n2 => exact Except.noConfusion h
        | arr xs2 => exact Except.noConfusion h
        | ref a2 => exact Except.noConfusion h
      | none =>
        simp only [href] at h
        cases hconst : alook (heapGet st saddr) "const" with
        | some c => simp only [hconst] at h; cases h; exact hp
        | none =>
          simp only [hconst] at h
          cases henum : alook (heapGet st saddr) "enum" with
          | some ev =>
            simp only [henum] at h
            cases hsub : pySubscript0H ev with
            | error e => simp only [hsub] at h; exact Except.noConfusion h
            | ok v0 => simp only [hsub] at h; cases h; exact hp
          | none =>
            simp only [henum] at h
            cases honeof : alook (heapGet st saddr) "oneOf" with
            | some ov =>
              simp only [honeof] at h
              cases hiter : pyIterValsH st ov with
              | error e => simp only [hiter] at h; exact Except.noConfusion h
              | ok options =>
                simp only [hiter] at h
                cases hfind : options.find? (fun o => !isNullTypedH st o) with
                | some opt =>
                  simp only [hfind] at h
                  exact ih opt b st r st' h p hp
                | none => simp only [hfind] at h; cases h; exact hp
            | none =>
              simp only [honeof] at h
              cases hanyof : alook (heapGet st saddr) "anyOf" with
              | some av =>
                simp only [hanyof] at h
                cases hiter : pyIterValsH st av with
                | error e => simp only [hiter] at h; exact Except.noConfusion h
                | ok options =>
                  simp only [hiter] at h
                  by_cases hany : options.any (isNullTypedH st) = true
                  · rw [if_pos hany] at h; cases h; exact hp
                  · rw [if_neg hany] at h
                    cases hsub : pySubscript0H av with
                    | error e => simp only [hsub] at h; exact Except.noConfusion h
                    | ok hd =>
                      simp only [hsub] at h
                      exact ih hd b st r st' h p hp
              | none =>
                simp only [hanyof] at h
                cases hallof : alook (heapGet st saddr) "allOf" with
                | some lv =>
                  simp only [hallof] at h
                  cases hiter : pyIterValsH st lv with
                  | error e => simp only [hiter] at h; exact Except.noConfusion h
                  | ok opts =>
                    simp only [hiter] at h
                    exact hAllOfGo_cache_mono _ hrec opts .null st r st' h p hp
                | none =>
                  simp only [hallof] at h
                  split at h
                  · cases hreq : pyIterStringsH st ((alook (heapGet st saddr) "required").getD (.arr [])) with
                    | error e => simp only [hreq] at h; exact Except.noConfusion h
                    | ok names =>
                      simp only [hreq] at h
                      cases hgo : hObjGo (fun o s0 => hSampleF env n o b s0)
                          (alook (heapGet st saddr) "properties") names [] st with
                      | error e => simp only [hgo] at h; exact Except.noConfusion h
                      | ok q =>
                        obtain ⟨obj, st1⟩ := q
                        simp only [hgo] at h
                        have hpo : (alook st1.cache p).isSome :=
                          hObjGo_cache_mono _ hrec _ names [] st obj st1 hgo p hp
                        split at h <;> (simp only [hAlloc] at h; cases h; exact hpo)
                  · split at h
                    · cases hgt : pyGtZeroH ((alook (heapGet st saddr) "minItems").getD (.int 0)) with
                      | error e => simp only [hgt] at h; exact Except.noConfusion h
                      | ok bb =>
                        simp only [hgt] at h
                        cases bb with
                        | true =>
                          cases hit : alook (heapGet st saddr) "items" with
                          | some itv =>
                            simp only [hit] at h
                            cases hsm : stateHMapM (fun o s0 => hSampleF env n o b s0)
                                (List.replicate
                                  (vToNatH ((alook (heapGet st saddr) "minItems").getD (.int 0))) itv)
                                st with
                            | error e => simp only [hsm] at h; exact Except.noConfusion h
                            | ok q =>
                              obtain ⟨vals, st1⟩ := q
                              simp only [hsm] at h
                              cases h
                              exact stateHMapM_cache_mono _ hrec _ st _ _ hsm p hp
                          | none =>
                            simp only [hit, hAlloc] at h
                            cases hsm : stateHMapM (fun o s0 => hSampleF env n o b s0)
                                (List.replicate
                                  (vToNatH ((alook (heapGet st saddr) "minItems").getD (.int 0)))
                                  (.ref st.next))
                                { st with heap := aset st.heap st.next [], next := st.next + 1 } with
                            | error e => simp only [hsm] at h; exact Except.noConfusion h
                            | ok q =>
                              obtain ⟨vals, st1⟩ := q
                              simp only [hsm] at h
                              cases h
                              exact stateHMapM_cache_mono _ hrec _ _ _ _ hsm p hp
                        | false => simp only [] at h; cases h; exact hp
                    · split at h
                      · cases hdef : alook (heapGet st saddr) "default" with
                        | some d => simp only [hdef] at h; cases h; exact hp
                        | none =>
                          simp only [hdef] at h
                          cases hml : alook (heapGet st saddr) "minLength" with
                          | some ml =>
                            simp only [hml] at h
                            cases hint : pyIntH ml with
                            | error e => simp only [hint] at h; exact Except.noConfusion h
                            | ok nn => simp only [hint] at h; cases h; exact hp
                          | none => simp only [hml] at h; cases h; exact hp
                      · split at h
                        · cases hdef : alook (heapGet st saddr) "default" with
                          | some d => simp only [hdef] at h; cases h; exact hp
                          | none =>
                            simp only [hdef] at h
                            cases hmin : alook (heapGet st saddr) "minimum" with
                            | some m =>
                              simp only [hmin] at h
                              cases hint : pyIntH m with
                              | error e => simp only [hint] at h; exact Except.noConfusion h
                              | ok nn => simp only [hint] at h; cases h; exact hp
                            | none => simp only [hmin] at h; cases h; exact hp
                        · split at h
                          · cases hdef : alook (heapGet st saddr) "default" with
                            | some d => simp only [hdef] at h; cases h; exact hp
                            | none =>
                              simp only [hdef] at h
                              cases hmin : alook (heapGet st saddr) "minimum" with
                              | some m => simp only [hmin] at h; cases h; exact hp
                              | none => simp only [hmin] at h; cases h; exact hp
                          · split at h
                            · cases hdef : alook (heapGet st saddr) "default" with
                              | some d => simp only [hdef] at h; cases h; exact hp
                              | none => simp only [hdef] at h; cases h; exact hp
                            · split at h
                              · cases h; exact hp
                              · simp only [hAlloc] at h; cases h; exact hp

theorem hStampFrom_cache : ∀ (es : List HVal) (k : Nat) (st : HSt),
    (hStampFrom k es st).cache = st.cache := by
  intro es
  induction es with
  | nil => intro k st; rfl
  | cons e rest ih =>
    intro k st
    cases e with
    | ref a => exact ih (k + 1) _
    | null => exact ih (k + 1) st
    | bool b => exact ih (k + 1) st
    | int n => exact ih (k + 1) st
    | str s => exact ih (k + 1) st
    | arr xs => exact ih (k + 1) st

theorem hStampFrom_frame_key : ∀ (es : List HVal) (k : Nat) (st : HSt) (a : Addr) (key : String),
    key ≠ "sequence_number" →
    heapKey (hStampFrom k es st) a key = heapKey st a key := by
  intro es
  induction es with
  | nil => intro k st a key hkey; rfl
  | cons e rest ih =>
    intro k st a key hkey
    cases e with
    | ref a0 =>
      show heapKey (hStampFrom (k + 1) rest (heapWrite st a0 "sequence_number" (.int k))) a key = _
      rw [ih (k + 1) _ a key hkey, heapKey_write_other_key _ _ _ _ _ _ hkey]
    | null => exact ih (k + 1) st a key hkey
    | bool b => exact ih (k + 1) st a key hkey
    | int n => exact ih (k + 1) st a key hkey
    | str s => exact ih (k + 1) st a key hkey
    | arr xs => exact ih (k + 1) st a key hkey

theorem hStampFrom_frame_addr : ∀ (es : List HVal) (k : Nat) (st : HSt) (a : Addr) (key : String),
    (∀ e ∈ es, e ≠ .ref a) →
    heapKey (hStampFrom k es st) a key = heapKey st a key := by
  intro es
  induction es with
  | nil => intro k st a key hnot; rfl
  | cons e rest ih =>
    intro k st a key hnot
    have hrest : ∀ e2 ∈ rest, e2 ≠ HVal.ref a :=
      fun e2 he2 => hnot e2 (List.mem_cons_of_mem e he2)
    cases e with
    | ref a0 =>
      have ha0 : a0 ≠ a := by
        intro hc
        exact hnot (.ref a0) (List.mem_cons_self _ _) (by rw [hc])
      show heapKey (hStampFrom (k + 1) rest (heapWrite st a0 "sequence_number" (.int k))) a key = _
      rw [ih (k + 1) _ a key hrest, heapKey_write, if_neg (fun he => ha0 he.symm)]
    | null => exact ih (k + 1) st a key hrest
    | bool b => exact ih (k + 1) st a key hrest
    | int n => exact ih (k + 1) st a key hrest
    | str s => exact ih (k + 1) st a key hrest
    | arr xs => exact ih (k + 1) st a key hrest

theorem hStampFrom_last : ∀ (es : List HVal) (k : Nat) (st : HSt) (a : Addr)
    (i : Nat) (h : i < es.length),
    es.get ⟨i, h⟩ = .ref a →
    (∀ (j : Nat) (hj : j < es.length), i < j → es.get ⟨j, hj⟩ ≠ .ref a) →
    heapKey (hStampFrom k es st) a "sequence_number" = some (.int (k + i)) := by
  intro es
  induction es with
  | nil => intro k st a i h; exact absurd h (by simp)
  | cons e rest ih =>
    intro k st a i h hi hlater
    cases i with
    | zero =>
      have he : e = .ref a := hi
      subst he
      have hrest : ∀ e2 ∈ rest, e2 ≠ HVal.ref a := by
        intro e2 he2 hc
        obtain ⟨⟨j, hj⟩, hget⟩ := List.mem_iff_get.mp he2
        have hj2 : j + 1 < (HVal.ref a :: rest).length := by
          simp only [List.length_cons]
          omega
        exact hlater (j + 1) hj2 (Nat.succ_pos j) (hget.trans hc)
      show heapKey (hStampFrom (k + 1) rest (heapWrite st a "sequence_number" (.int k))) a _ = _
      rw [hStampFrom_frame_addr rest (k + 1) _ a _ hrest, heapKey_write_self]
      norm_num
    | succ i0 =>
      have h0 : i0 < rest.length := by simpa using h
      have hget : rest.get ⟨i0, h0⟩ = .ref a := hi
      have hlater0 : ∀ (j : Nat) (hj : j < rest.length), i0 < j → rest.get ⟨j, hj⟩ ≠ .ref a := by
        intro j hj hij
        exact hlater (j + 1) (by simpa using hj) (by omega)
      have hk : k + 1 + i0 = k + (i0 + 1) := by omega
      cases e with
      | ref a0 =>
        show heapKey (hStampFrom (k + 1) rest (heapWrite st a0 "sequence_number" (.int k))) a _ = _
        rw [ih (k + 1) _ a i0 h0 hget hlater0]
        congr 2
        omega
      | null =>
        rw [show hStampFrom k (HVal.null :: rest) st = hStampFrom (k + 1) rest st from rfl,
          ih (k + 1) st a i0 h0 hget hlater0]
        congr 2
        omega
      | bool b =>
        rw [show hStampFrom k (HVal.bool b :: rest) st = hStampFrom (k + 1) rest st from rfl,
          ih (k + 1) st a i0 h0 hget hlater0]
        congr 2
        omega
      | int n =>
        rw [show hStampFrom k (HVal.int n :: rest) st = hStampFrom (k + 1) rest st from rfl,
          ih (k + 1) st a i0 h0 hget hlater0]
        congr 2
        omega
      | str s2 =>
        rw [show hStampFrom k (HVal.str s2 :: rest) st = hStampFrom (k + 1) rest st from rfl,
          ih (k + 1) st a i0 h0 hget hlater0]
        congr 2
        omega
      | arr xs =>
        rw [show hStampFrom k (HVal.arr xs :: rest) st = hStampFrom (k + 1) rest st from rfl,
          ih (k + 1) st a i0 h0 hget hlater0]
        congr 2
        omega

theorem ensure_type_fieldH_cache (event : HVal) (schema : HVal) (st : HSt) (st' : HSt)
    (h : ensure_type_fieldH event schema st = .ok st') : st'.cache = st.cache := by
  unfold ensure_type_fieldH at h
  cases event with
  | ref ea =>
    cases hty : alook (heapGet st ea) "type" with
    | some v => simp only [hty] at h; cases h; rfl
    | none =>
      simp only [hty] at h
      cases schema with
      | ref sa =>
        cases hprops : alook (heapGet st sa) "properties" with
        | none => simp only [hprops] at h; cases h; rfl
        | some pv =>
          simp only [hprops] at h
          cases pv with
          | ref pa =>
            cases htype : alook (heapGet st pa) "type" with
            | none => simp only [htype] at h; cases h; rfl
            | some tv =>
              simp only [htype] at h
              cases tv with
              | ref ta =>
                cases henum : alook (heapGet st ta) "enum" with
                | none => simp only [henum] at h; cases h; rfl
                | some ev =>
                  simp only [henum] at h
                  cases hsub : pySubscript0H ev with
                  | error e => simp only [hsub] at h; exact Except.noConfusion h
                  | ok v0 => simp only [hsub] at h; cases h; rfl
              | null => simp only at h; cases h; rfl
              | bool b => simp only at h; cases h; rfl
              | int n => simp only at h; cases h; rfl
              | str s => simp only at h; cases h; rfl
              | arr xs => simp only at h; cases h; rfl
          | null => exact Except.noConfusion h
          | bool b => exact Except.noConfusion h
          | int n => exact Except.noConfusion h
          | str s => exact Except.noConfusion h
          | arr xs => exact Except.noConfusion h
      | null => exact Except.noConfusion h
      | bool b => exact Except.noConfusion h
      | int n => exact Except.noConfusion h
      | str s => exact Except.noConfusion h
      | arr xs => exact Except.noConfusion h
  | null => cases h; rfl
  | bool b => cases h; rfl
  | int n => cases h; rfl
  | str s => cases h; rfl
  | arr xs => cases h; rfl

/-! ### C1: the allOf merge -/

theorem foldl_allOfStep_obj (rest : List Value) (a : List (String × Value)) :
    rest.foldl allOfStep (.obj a) = .obj ((rest.filterMap objFields).foldl dictUpdate a) := by
  induction rest generalizing a with
  | nil => rfl
  | cons w ws ih =>
    cases w <;> simp [List.foldl, allOfStep, objFields, List.filterMap, ih]

theorem foldl_allOfStep_scalar (rest : List Value) (v : Value)
    (hnull : isNullV v = false) (hobj : objFields v = none) :
    rest.foldl allOfStep v = v := by
  induction rest with
  | nil => rfl
  | cons w ws ih =>
    have hstep : allOfStep v w = v := by
      cases v <;> simp_all [allOfStep, isNullV, objFields]
    rw [List.foldl, hstep, ih]

theorem foldl_allOfStep_eq_mergeResult (vals : List Value) :
    vals.foldl allOfStep .null = mergeResult vals := by
  induction vals with
  | nil => rfl
  | cons v vs ih =>
    cases v with
    | null =>
      rw [List.foldl]
      simpa [mergeResult, List.dropWhile, isNullV] using ih
    | obj a =>
      rw [List.foldl]
      simp [allOfStep, mergeResult, List.dropWhile, isNullV, foldl_allOfStep_obj]
    | bool b =>
      rw [List.foldl]
      simp [allOfStep, mergeResult, List.dropWhile, isNullV,
        foldl_allOfStep_scalar vs (.bool b) rfl rfl]
    | int n =>
      rw [List.foldl]
      simp [allOfStep, mergeResult, List.dropWhile, isNullV,
        foldl_allOfStep_scalar vs (.int n) rfl rfl]
    | str s =>
      rw [List.foldl]
      simp [allOfStep, mergeResult, List.dropWhile, isNullV,
        foldl_allOfStep_scalar vs (.str s) rfl rfl]
    | arr xs =>
      rw [List.foldl]
      simp [allOfStep, mergeResult, List.dropWhile, isNullV,
        foldl_allOfStep_scalar vs (.arr xs) rfl rfl]

/-- C1: for a schema with an `allOf` list, `sample_from_schema` recurses into
every branch in listed order (at depth+1, threading the cache) and combines
the branch results as the accumulator loop does, which `mergeResult`
describes: leading nulls are skipped, the first non-null result is the
accumulator, later mapping-shaped results are overlaid onto it (later keys
winning) only when that accumulator is itself a mapping, and every other
later result is discarded.  When all branch results are mappings this is the
claimed left-to-right overlay; but when a non-mapping result appears, the
overall result is the first non-null branch result, not the last non-mapping
one. -/
theorem C1_allOf_merge (env : SEnv) (b : SPath) (st : St) (opts : List Value)
    (d : Nat) (h : d ≤ 40) :
    sample_from_schema env (.obj [("allOf", .arr opts)]) b d st =
      (match stateMapM (fun o s => sample_from_schema env o b (d + 1) s) opts st with
       | .error e => .error e
       | .ok (vals, st1) => .ok (mergeResult vals, st1)) ∧
    (∀ (a : List (String × Value)) (bs : List (List (String × Value))),
      mergeResult (.obj a :: bs.map .obj) = .obj (bs.foldl dictUpdate a)) := by
  constructor
  · have hfuel : 41 - d = (40 - d) + 1 := by omega
    have hfuel2 : 41 - (d + 1) = 40 - d := by omega
    unfold sample_from_schema
    rw [hfuel, hfuel2]
    show (match stateMapM (fun o s => sampleF env (40 - d) o b s) opts st with
       | Except.error e => Except.error e
       | Except.ok (vals, st1) => Except.ok (vals.foldl allOfStep Value.null, st1)) = _
    cases hsm : stateMapM (fun o s => sampleF env (40 - d) o b s) opts st with
    | error e => rfl
    | ok p =>
      obtain ⟨vals, st1⟩ := p
      simp [foldl_allOfStep_eq_mergeResult]
  · intro a bs
    have hfm : (bs.map Value.obj).filterMap objFields = bs := by
      induction bs with
      | nil => rfl
      | cons x xs ih => simp [objFields, ih]
    simp [mergeResult, List.dropWhile, isNullV, hfm]

/-- C1 counterexample: `allOf` over the constants 5 and 7 (two non-mapping
branch results) samples to 5, the first branch's value, whereas the claim
says the last non-mapping branch result (7) wins. -/
theorem C1_allOf_counterexample :
    sample_from_schema [] (Value.obj [("allOf", Value.arr
      [Value.obj [("const", Value.int 5)], Value.obj [("const", Value.int 7)]])])
      ["d"] 0 emptySt = .ok (.int 5, emptySt) ∧ Value.int 5 ≠ Value.int 7 := by
  refine ⟨rfl, ?_⟩
  intro hc
  injection hc with hc'
  exact absurd hc' (by decide)

/-- C1 witness: the amended characterization evaluated on the two-constant
`allOf` schema at depth 0. -/
theorem C1_allOf_merge_witness :
    sample_from_schema [] (.obj [("allOf", .arr
      [Value.obj [("const", Value.int 5)], Value.obj [("const", Value.int 7)]])])
      ["d"] 0 emptySt =
      (match stateMapM (fun o s => sample_from_schema [] o ["d"] (0 + 1) s)
          [Value.obj [("const", Value.int 5)], Value.obj [("const", Value.int 7)]] emptySt with
       | .error e => .error e
       | .ok (vals, st1) => .ok (mergeResult vals, st1)) ∧
    (∀ (a : List (String × Value)) (bs : List (List (String × Value))),
      mergeResult (.obj a :: bs.map .obj) = .obj (bs.foldl dictUpdate a)) :=
  C1_allOf_merge [] ["d"] emptySt
    [Value.obj [("const", Value.int 5)], Value.obj [("const", Value.int 7)]] 0 (by decide)

/-! ### C6: the oneOf / anyOf null asymmetry -/

theorem find?_eq_head?_filter {α : Type} (p : α → Bool) (l : List α) :
    l.find? p = (l.filter p).head? := by
  induction l with
  | nil => rfl
  | cons x xs ih =>
    simp only [List.find?, List.filter]
    cases hx : p x with
    | true => rfl
    | false => exact ih

/-- C6: `anyOf: [null-type, string-type]` samples to null while
`oneOf: [null-type, string-type]` samples to the string branch's sample `""`;
in general `oneOf` recurses into the first branch that is not explicitly
null-typed (null when every branch is), while `anyOf` returns null outright
as soon as any branch is explicitly null-typed and otherwise recurses into
the first listed branch only. -/
theorem C6_union_null_asymmetry (env : SEnv) (b : SPath) (st : St)
    (opts : List Value) (d : Nat) (h : d ≤ 39) :
    sample_from_schema env (.obj [("anyOf", .arr
      [.obj [("type", .str "null")], .obj [("type", .str "string")]])]) b d st
      = .ok (.null, st) ∧
    sample_from_schema env (.obj [("oneOf", .arr
      [.obj [("type", .str "null")], .obj [("type", .str "string")]])]) b d st
      = .ok (.str "", st) ∧
    (sample_from_schema env (.obj [("oneOf", .arr opts)]) b d st =
      match (opts.filter (fun o => !isNullTyped o)).head? with
      | some opt => sample_from_schema env opt b (d + 1) st
      | none => .ok (.null, st)) ∧
    (sample_from_schema env (.obj [("anyOf", .arr opts)]) b d st =
      if opts.any isNullTyped then .ok (.null, st)
      else
        match opts with
        | [] => .error .indexError
        | hd :: _ => sample_from_schema env hd b (d + 1) st) := by
  have hf1 : 41 - d = (40 - d) + 1 := by omega
  have hf2 : 40 - d = (39 - d) + 1 := by omega
  have hf3 : 41 - (d + 1) = 40 - d := by omega
  refine ⟨?_, ?_, ?_, ?_⟩
  · unfold sample_from_schema
    rw [hf1]
    rfl
  · unfold sample_from_schema
    rw [hf1]
    show sampleF env (40 - d) (.obj [("type", Value.str "string")]) b st = _
    rw [hf2]
    rfl
  · unfold sample_from_schema
    rw [hf1, hf3]
    show (match opts.find? (fun o => !isNullTyped o) with
          | some opt => sampleF env (40 - d) opt b st
          | none => Except.ok (Value.null, st)) = _
    rw [find?_eq_head?_filter]
  · unfold sample_from_schema
    rw [hf1, hf3]
    show (if opts.any isNullTyped then Except.ok (Value.null, st)
          else
            match pySubscript0 (.arr opts) with
            | .error e => Except.error e
            | .ok hd => sampleF env (40 - d) hd b st) = _
    by_cases hany : opts.any isNullTyped
    · simp [hany]
    · cases opts with
      | nil => simp [hany, pySubscript0]
      | cons hd tl => simp [hany, pySubscript0]

/-- C6 witness: the asymmetry theorem applied at depth 0 with an empty
environment and the two-branch option list. -/
theorem C6_union_null_asymmetry_witness :
    sample_from_schema [] (.obj [("anyOf", .arr
      [.obj [("type", .str "null")], .obj [("type", .str "string")]])]) ["d"] 0 emptySt
      = .ok (.null, emptySt) ∧
    sample_from_schema [] (.obj [("oneOf", .arr
      [.obj [("type", .str "null")], .obj [("type", .str "string")]])]) ["d"] 0 emptySt
      = .ok (.str "", emptySt) ∧
    (sample_from_schema [] (.obj [("oneOf", .arr
      [.obj [("type", .str "null")], .obj [("type", .str "string")]])]) ["d"] 0 emptySt =
      match ([Value.obj [("type", Value.str "null")],
              Value.obj [("type", Value.str "string")]].filter
          (fun o => !isNullTyped o)).head? with
      | some opt => sample_from_schema [] opt ["d"] (0 + 1) emptySt
      | none => .ok (.null, emptySt)) ∧
    (sample_from_schema [] (.obj [("anyOf", .arr
      [.obj [("type", .str "null")], .obj [("type", .str "string")]])]) ["d"] 0 emptySt =
      if [Value.obj [("type", Value.str "null")],
          Value.obj [("type", Value.str "string")]].any isNullTyped
      then .ok (.null, emptySt)
      else
        match [Value.obj [("type", Value.str "null")],
               Value.obj [("type", Value.str "string")]] with
        | [] => .error .indexError
        | hd :: _ => sample_from_schema [] hd ["d"] (0 + 1) emptySt) :=
  C6_union_null_asymmetry [] ["d"] emptySt
    [Value.obj [("type", Value.str "null")], Value.obj [("type", Value.str "string")]]
    0 (by decide)

/-! ### C4: depth guard and cycle termination -/

set_option maxHeartbeats 1000000 in
/-- C4: past depth 40 the sampler returns null immediately without touching
the state.  A two-node reference cycle sampled from depth 0 terminates and
returns a value (null, after the depth guard cuts the unwinding); the
self-referential schema sampled from depth 0 terminates with a value after
exactly 21 cache writes; and the same self-referential schema sampled with
depth budget 33 returns the 4-fold nesting the remaining budget permits, so
the unwinding is bounded by the depth guard rather than running forever. -/
theorem C4_depth_guard_and_cycles (env : SEnv) (schema : Value) (b : SPath)
    (st : St) (d : Nat) (h : 40 < d) :
    sample_from_schema env schema b d st = .ok (.null, st) ∧
    (∃ stout, sample_from_schema cyc2Env (.obj [("$ref", .str "X.json")]) ["s"] 0 emptySt
       = .ok (.null, stout)) ∧
    (∃ v stout, sample_from_schema cycEnvA (.obj [("$ref", .str "A.json")]) ["schemas"] 0 emptySt
       = .ok (v, stout) ∧ stout.log.length = 21) ∧
    (∃ stout, sample_from_schema cycEnvA (.obj [("$ref", .str "A.json")]) ["schemas"] 33 emptySt
       = .ok (nestX 4, stout)) := by
  refine ⟨?_, ⟨_, rfl⟩, ⟨_, _, rfl, rfl⟩, ⟨_, rfl⟩⟩
  unfold sample_from_schema
  rw [show 41 - d = 0 by omega]
  rfl

set_option maxHeartbeats 1000000 in
/-- C4 witness: the guard applied at depth 41. -/
theorem C4_depth_guard_and_cycles_witness :
    sample_from_schema [] (.obj []) ["d"] 41 emptySt = .ok (.null, emptySt) ∧
    (∃ stout, sample_from_schema cyc2Env (.obj [("$ref", .str "X.json")]) ["s"] 0 emptySt
       = .ok (.null, stout)) ∧
    (∃ v stout, sample_from_schema cycEnvA (.obj [("$ref", .str "A.json")]) ["schemas"] 0 emptySt
       = .ok (v, stout) ∧ stout.log.length = 21) ∧
    (∃ stout, sample_from_schema cycEnvA (.obj [("$ref", .str "A.json")]) ["schemas"] 33 emptySt
       = .ok (nestX 4, stout)) :=
  C4_depth_guard_and_cycles [] (.obj []) ["d"] emptySt 41 (by decide)

/-! ### C9: type-field synthesis -/

/-- C9 counterexample: a schema declaring its `type` property by a `const`
(not an `enum`) does not get a `type` member synthesized: the event stays the
empty mapping, while the claim says the constant would be recovered. -/
theorem C9_ensure_type_counterexample :
    ensure_type_field (.obj [])
      (.obj [("properties", .obj [("type", .obj [("const", .str "a")])])])
      = .ok (.obj []) ∧
    alook ([] : List (String × Value)) "type" = none :=
  ⟨rfl, rfl⟩

/-- C9 (amended): an event that already has a `type` member is returned
unchanged; a missing `type` is synthesized only from a declared `enum` for
the schema's `type` property (taking its first element); a `type` property
declared any other way — a `const` included — synthesizes nothing. -/
theorem C9_ensure_type_field :
    (∀ (ekvs : List (String × Value)) (schema : Value) (w : Value),
       alook ekvs "type" = some w →
       ensure_type_field (.obj ekvs) schema = .ok (.obj ekvs)) ∧
    (∀ (ekvs skvs pkvs tkvs : List (String × Value)) (v : Value) (vs : List Value),
       alook ekvs "type" = none →
       alook skvs "properties" = some (.obj pkvs) →
       alook pkvs "type" = some (.obj tkvs) →
       alook tkvs "enum" = some (.arr (v :: vs)) →
       ensure_type_field (.obj ekvs) (.obj skvs)
         = .ok (.obj (aset ekvs "type" v))) ∧
    (∀ (ekvs skvs pkvs tkvs : List (String × Value)),
       alook ekvs "type" = none →
       alook skvs "properties" = some (.obj pkvs) →
       alook pkvs "type" = some (.obj tkvs) →
       alook tkvs "enum" = none →
       ensure_type_field (.obj ekvs) (.obj skvs) = .ok (.obj ekvs)) := by
  refine ⟨?_, ?_, ?_⟩
  · intro ekvs schema w h
    simp [ensure_type_field, h]
  · intro ekvs skvs pkvs tkvs v vs h1 h2 h3 h4
    simp [ensure_type_field, h1, h2, h3, h4, pySubscript0]
  · intro ekvs skvs pkvs tkvs h1 h2 h3 h4
    simp [ensure_type_field, h1, h2, h3, h4]

/-- C9 witness: the three cases evaluated on concrete events and schemas. -/
theorem C9_ensure_type_field_witness :
    ensure_type_field (.obj [("type", .str "t")]) (.obj [])
      = .ok (.obj [("type", .str "t")]) ∧
    ensure_type_field (.obj [])
        (.obj [("properties", .obj [("type", .obj [("enum", .arr [.str "a"])])])])
      = .ok (.obj (aset [] "type" (.str "a"))) ∧
    ensure_type_field (.obj [])
        (.obj [("properties", .obj [("type", .obj [("const", .str "a")])])])
      = .ok (.obj []) :=
  ⟨C9_ensure_type_field.1 [("type", .str "t")] (.obj []) (.str "t") rfl,
   C9_ensure_type_field.2.1 [] [("properties", .obj [("type", .obj [("enum", .arr [.str "a"])])])]
     [("type", .obj [("enum", .arr [.str "a"])])] [("enum", .arr [.str "a"])]
     (.str "a") [] rfl rfl rfl rfl,
   C9_ensure_type_field.2.2 [] [("properties", .obj [("type", .obj [("const", .str "a")])])]
     [("type", .obj [("const", .str "a")])] [("const", .str "a")] rfl rfl rfl rfl⟩

/-! ### C10: sequence-number stamping is frame-preserving -/

/-- C10 counterexample: on the machine, the same event object emitted at
positions 1 and 2 of the allow-list keeps only the last write, so the event
at the first position reads back sequence number 2, not its 1-based position
1 — the claimed per-event overwrite with the event's own position is false
for duplicated (aliased) event objects. -/
theorem C10_stamp_counterexample :
    [HVal.ref 0, HVal.ref 0].get ⟨0, by decide⟩ = HVal.ref 0 ∧
    readEventKey (hStamp [HVal.ref 0, HVal.ref 0] ⟨[(0, [("type", HVal.str "x")])], 1, [], []⟩)
        "sequence_number" (HVal.ref 0) = some (HVal.int 2) ∧
    some (HVal.int 2) ≠ some (HVal.int 1) :=
  ⟨rfl, rfl, by
    intro hc
    injection hc with h1
    injection h1 with h2
    exact absurd h2 (by decide)⟩

/-- C10 (amended): sequence-number stamping performs one in-place write of
the `sequence_number` member per event position and nothing else: for every
dict object in the heap, the lookup of every key other than
`sequence_number` is unchanged by stamping (a global frame law, covering
events and non-events alike); and the `sequence_number` an object reads back
afterwards is `i + 1` where `i` is the LAST position at which that object
was emitted — so distinct event objects carry their 1-based positions, while
an object emitted at several positions keeps only the last one, and the
write shows through every alias of the object. -/
theorem C10_stamp_frame :
    (∀ (events : List HVal) (st : HSt) (a : Addr) (k : String), k ≠ "sequence_number" →
       heapKey (hStamp events st) a k = heapKey st a k) ∧
    (∀ (events : List HVal) (st : HSt) (a : Addr) (i : Nat) (h : i < events.length),
       events.get ⟨i, h⟩ = .ref a →
       (∀ (j : Nat) (hj : j < events.length), i < j → events.get ⟨j, hj⟩ ≠ .ref a) →
       heapKey (hStamp events st) a "sequence_number" = some (.int (i + 1))) := by
  constructor
  · intro events st a k hk
    exact hStampFrom_frame_key events 1 st a k hk
  · intro events st a i h hget hlater
    rw [show hStamp events st = hStampFrom 1 events st from rfl,
      hStampFrom_last events 1 st a i h hget hlater]
    congr 2
    omega

/-- C10 witness: stamping a one-event list leaves the other member of the
event in place and stamps sequence number 1. -/
theorem C10_stamp_frame_witness :
    heapKey (hStamp [HVal.ref 0] ⟨[(0, [("a", HVal.null)])], 1, [], []⟩) 0 "a"
      = heapKey ⟨[(0, [("a", HVal.null)])], 1, [], []⟩ 0 "a" ∧
    heapKey (hStamp [HVal.ref 0] ⟨[(0, [("a", HVal.null)])], 1, [], []⟩) 0 "sequence_number"
      = some (.int (0 + 1)) :=
  ⟨C10_stamp_frame.1 [HVal.ref 0] ⟨[(0, [("a", HVal.null)])], 1, [], []⟩ 0 "a" (by decide),
   C10_stamp_frame.2 [HVal.ref 0] ⟨[(0, [("a", HVal.null)])], 1, [], []⟩ 0 0 (by decide) rfl
     (fun j hj hij => absurd hij (by simp at hj; omega))⟩

/-! ### C5 and C7: assembler ordering, stamping, and coverage enforcement -/

theorem alook_mem {α β : Type} [DecidableEq α] (l : List (α × β)) (k : α) (v : β)
    (h : alook l k = some v) : (k, v) ∈ l := by
  induction l with
  | nil => simp [alook] at h
  | cons hd tl ih =>
    obtain ⟨k0, v0⟩ := hd
    by_cases h0 : k0 = k
    · subst h0
      simp [alook] at h
      simp [h]
    · simp [alook, h0] at h
      exact List.mem_cons_of_mem _ (ih h)

/-- On a list where the function is everywhere defined, `filterMap` keeps the
length and acts pointwise. -/
theorem filterMap_all_some {α β : Type} (f : α → Option β) (l : List α)
    (h : ∀ x ∈ l, (f x).isSome) :
    (l.filterMap f).length = l.length ∧
    ∀ i (hi : i < (l.filterMap f).length) (hi2 : i < l.length),
      some ((l.filterMap f).get ⟨i, hi⟩) = f (l.get ⟨i, hi2⟩) := by
  induction l with
  | nil => exact ⟨rfl, fun i hi hi2 => absurd hi2 (by simp)⟩
  | cons x xs ih =>
    have hx : (f x).isSome := h x (List.mem_cons_self x xs)
    obtain ⟨y, hy⟩ := Option.isSome_iff_exists.mp hx
    have ih2 := ih (fun z hz => h z (List.mem_cons_of_mem x hz))
    constructor
    · simp [List.filterMap_cons, hy, ih2.1]
    · intro i hi hi2
      rcases i with _ | j
      · simp [List.filterMap_cons, hy]
      · have hj : j < (xs.filterMap f).length := by
          have := hi
          simp [List.filterMap_cons, hy] at this
          omega
        have hj2 : j < xs.length := by simpa using hi2
        have := ih2.2 j hj hj2
        simpa [List.filterMap_cons, hy] using this

theorem hBuildIndex_cons_of_single (env : SEnv) (allowed : List String) (p : SPath)
    (rest : List SPath) (m m1 : List (String × HVal)) (st st1 : HSt)
    (h : hBuildIndex env allowed [p] m st = .ok (m1, st1)) :
    hBuildIndex env allowed (p :: rest) m st = hBuildIndex env allowed rest m1 st1 := by
  simp only [hBuildIndex] at h ⊢
  cases hload : load_schemaH env p st with
  | error e => simp only [hload] at h; exact Except.noConfusion h
  | ok q0 =>
    obtain ⟨schema, sta⟩ := q0
    simp only [hload] at h ⊢
    cases hsamp : hSampleF env 41 schema (sparent p) sta with
    | error e => simp only [hsamp] at h; exact Except.noConfusion h
    | ok q1 =>
      obtain ⟨event0, stb⟩ := q1
      simp only [hsamp] at h ⊢
      cases event0 with
      | ref ea =>
        cases hens : ensure_type_fieldH (.ref ea) schema stb with
        | error e => simp only [hens] at h; exact Except.noConfusion h
        | ok stc =>
          simp only [hens] at h ⊢
          cases h
          rfl
      | null =>
        simp only [hAlloc] at h ⊢
        cases hens : ensure_type_fieldH (.ref stb.next) schema
            { stb with heap := aset stb.heap stb.next [], next := stb.next + 1 } with
        | error e => simp only [hens] at h; exact Except.noConfusion h
        | ok stc =>
          simp only [hens] at h ⊢
          cases h
          rfl
      | bool b2 =>
        simp only [hAlloc] at h ⊢
        cases hens : ensure_type_fieldH (.ref stb.next) schema
            { stb with heap := aset stb.heap stb.next [], next := stb.next + 1 } with
        | error e => simp only [hens] at h; exact Except.noConfusion h
        | ok stc =>
          simp only [hens] at h ⊢
          cases h
          rfl
      | int n2 =>
        simp only [hAlloc] at h ⊢
        cases hens : ensure_type_fieldH (.ref stb.next) schema
            { stb with heap := aset stb.heap stb.next [], next := stb.next + 1 } with
        | error e => simp only [hens] at h; exact Except.noConfusion h
        | ok stc =>
          simp only [hens] at h ⊢
          cases h
          rfl
      | str s2 =>
        simp only [hAlloc] at h ⊢
        cases hens : ensure_type_fieldH (.ref stb.next) schema
            { stb with heap := aset stb.heap stb.next [], next := stb.next + 1 } with
        | error e => simp only [hens] at h; exact Except.noConfusion h
        | ok stc =>
          simp only [hens] at h ⊢
          cases h
          rfl
      | arr xs2 =>
        simp only [hAlloc] at h ⊢
        cases hens : ensure_type_fieldH (.ref stb.next) schema
            { stb with heap := aset stb.heap stb.next [], next := stb.next + 1 } with
        | error e => simp only [hens] at h; exact Except.noConfusion h
        | ok stc =>
          simp only [hens] at h ⊢
          cases h
          rfl

theorem hGenerate_length (env : SEnv) (files : List SPath) (allowed : List String)
    (evs : List HVal) (st : HSt)
    (h : hGenerate_events env files allowed = .ok (evs, st)) :
    evs.length = allowed.length := by
  unfold hGenerate_events at h
  cases hb : hBuildIndex env allowed files [] ⟨[], 0, [], []⟩ with
  | error e => simp only [hb] at h; exact Except.noConfusion h
  | ok q =>
    obtain ⟨m, st0⟩ := q
    simp only [hb] at h
    split at h
    · cases h
      rename_i hemp
      have hnil : allowed.filter (fun t => (alook m t).isNone) = [] :=
        List.isEmpty_iff.mp hemp
      have hall : ∀ t ∈ allowed, (alook m t).isSome := by
        intro t ht
        by_contra hns
        have hin : t ∈ allowed.filter (fun t => (alook m t).isNone) := by
          rw [List.mem_filter]
          refine ⟨ht, ?_⟩
          cases hv : alook m t with
          | some v => rw [hv] at hns; exact absurd rfl hns
          | none => rfl
        rw [hnil] at hin
        exact absurd hin (List.not_mem_nil t)
      exact (filterMap_all_some (fun t => alook m t) allowed hall).1
    · exact Except.noConfusion h

set_option maxHeartbeats 4000000 in
/-- C5 counterexample: on the two-file corpus where `AStreamingEvent.json`
is a bare reference to `Base.json` and `BStreamingEvent.json` merges the
same reference under `allOf`, the run succeeds with two emitted events that
are the SAME heap object: sampling B's `allOf` mutates the cached Base
sample (which is also the event indexed under `"a"`) to carry type `"b"`,
both allow-list entries index that one object, and stamping leaves sequence
number 2 on both positions.  The read-back sequence numbers are `[2, 2]` —
a duplicate and a gap, not the claimed contiguous run `1..N` — and both
events read back type `"b"`. -/
theorem C5_sequence_counterexample :
    (hGenerate_events aliasEnv
        [["s", "AStreamingEvent.json"], ["s", "BStreamingEvent.json"]] ["a", "b"]).map
      (fun pr => (pr.1.map (readEventKey pr.2 "sequence_number"),
                  pr.1.map (readEventKey pr.2 "type"))) =
      .ok ([some (HVal.int 2), some (HVal.int 2)],
           [some (HVal.str "b"), some (HVal.str "b")]) ∧
    [some (HVal.int 2), some (HVal.int 2)] ≠ [some (HVal.int 1), some (HVal.int 2)] := by
  constructor
  · have hA : hBuildIndex aliasEnv ["a", "b"] [["s", "AStreamingEvent.json"]] [] ⟨[], 0, [], []⟩
        = .ok ([("a", HVal.ref 4)],
          ⟨[(0, [("$ref", HVal.str "Base.json")]),
            (1, [("const", HVal.str "a")]),
            (2, [("type", HVal.ref 1)]),
            (3, [("type", HVal.str "object"), ("properties", HVal.ref 2),
                 ("required", HVal.arr [HVal.str "type"])]),
            (4, [("type", HVal.str "a")])],
           5,
           [(["s", "AStreamingEvent.json"], HVal.ref 0), (["s", "Base.json"], HVal.ref 3)],
           [(["s", "Base.json"], HVal.ref 4)]⟩) := rfl
    have hB : hBuildIndex aliasEnv ["a", "b"] [["s", "BStreamingEvent.json"]]
          [("a", HVal.ref 4)]
          ⟨[(0, [("$ref", HVal.str "Base.json")]),
            (1, [("const", HVal.str "a")]),
            (2, [("type", HVal.ref 1)]),
            (3, [("type", HVal.str "object"), ("properties", HVal.ref 2),
                 ("required", HVal.arr [HVal.str "type"])]),
            (4, [("type", HVal.str "a")])],
           5,
           [(["s", "AStreamingEvent.json"], HVal.ref 0), (["s", "Base.json"], HVal.ref 3)],
           [(["s", "Base.json"], HVal.ref 4)]⟩
        = .ok ([("a", HVal.ref 4), ("b", HVal.ref 4)],
          ⟨[(0, [("$ref", HVal.str "Base.json")]),
            (1, [("const", HVal.str "a")]),
            (2, [("type", HVal.ref 1)]),
            (3, [("type", HVal.str "object"), ("properties", HVal.ref 2),
                 ("required", HVal.arr [HVal.str "type"])]),
            (4, [("type", HVal.str "b")]),
            (5, [("$ref", HVal.str "Base.json")]),
            (6, [("const", HVal.str "b")]),
            (7, [("type", HVal.ref 6)]),
            (8, [("type", HVal.str "object"), ("properties", HVal.ref 7),
                 ("required", HVal.arr [HVal.str "type"])]),
            (9, [("allOf", HVal.arr [HVal.ref 5, HVal.ref 8])]),
            (10, [("type", HVal.str "b")])],
           11,
           [(["s", "AStreamingEvent.json"], HVal.ref 0), (["s", "Base.json"], HVal.ref 3),
            (["s", "BStreamingEvent.json"], HVal.ref 9)],
           [(["s", "Base.json"], HVal.ref 4)]⟩) := rfl
    have hAB := (hBuildIndex_cons_of_single aliasEnv ["a", "b"] ["s", "AStreamingEvent.json"]
      [["s", "BStreamingEvent.json"]] [] _ ⟨[], 0, [], []⟩ _ hA).trans hB
    unfold hGenerate_events
    rw [hAB]
    rfl
  · intro hc
    injection hc with h1
    injection h1 with h2
    injection h2 with h3
    exact absurd h3 (by decide)

/-- C5 (amended): whenever the assembler succeeds it emits exactly one event
per allow-list entry (so N events for an allow-list of length N, regardless
of the schema-file discovery order, which is quantified away); and when the
emitted event objects are pairwise DISTINCT heap objects, the event at
position `i` reads back sequence number `i + 1`, i.e. the numbers are
exactly the contiguous run `1..N` in allow-list order.  Distinctness is a
genuine side condition: aliasing between sampled events (the counterexample)
produces duplicates and gaps. -/
theorem C5_sequence_contiguity :
    (∀ (env : SEnv) (files : List SPath) (allowed : List String)
       (evs : List HVal) (st : HSt),
       hGenerate_events env files allowed = .ok (evs, st) →
       evs.length = allowed.length) ∧
    (∀ (events : List HVal) (st : HSt),
       (∀ e ∈ events, (addrOf e).isSome) →
       (events.map addrOf).Nodup →
       ∀ (i : Nat) (h : i < events.length),
         readEventKey (hStamp events st) "sequence_number" (events.get ⟨i, h⟩)
           = some (.int (i + 1))) := by
  constructor
  · exact hGenerate_length
  · intro events st h1 h2 i hlt
    have hmem : events.get ⟨i, hlt⟩ ∈ events := events.get_mem _ _
    have hsome := h1 _ hmem
    cases hv : events.get ⟨i, hlt⟩ with
    | ref a =>
      have hlater : ∀ (j : Nat) (hj : j < events.length), i < j →
          events.get ⟨j, hj⟩ ≠ HVal.ref a := by
        intro j hj hij hc
        have hmain : (events.map addrOf).get ⟨i, by simpa using hlt⟩
            = (events.map addrOf).get ⟨j, by simpa using hj⟩ := by
          rw [List.get_map, List.get_map, hv, hc]
        have := (List.Nodup.get_inj_iff h2).mp hmain
        have hij2 : i = j := by
          simpa using congrArg Fin.val this
        omega
      show heapKey (hStampFrom 1 events st) a "sequence_number" = _
      rw [hStampFrom_last events 1 st a i hlt hv hlater]
      congr 2
      omega
    | null => rw [hv] at hsome; exact absurd hsome (by simp [addrOf])
    | bool b => rw [hv] at hsome; exact absurd hsome (by simp [addrOf])
    | int n => rw [hv] at hsome; exact absurd hsome (by simp [addrOf])
    | str s2 => rw [hv] at hsome; exact absurd hsome (by simp [addrOf])
    | arr xs => rw [hv] at hsome; exact absurd hsome (by simp [addrOf])

set_option maxHeartbeats 1000000 in
/-- C5 witness: a one-file, one-type run emits one event, and stamping a
single distinct event object stamps sequence number 1. -/
theorem C5_sequence_contiguity_witness :
    ([HVal.ref 4] : List HVal).length = (["a"] : List String).length ∧
    readEventKey (hStamp [HVal.ref 0] ⟨[(0, [])], 1, [], []⟩) "sequence_number"
        ([HVal.ref 0].get ⟨0, by decide⟩) = some (.int (0 + 1)) :=
  ⟨C5_sequence_contiguity.1 aliasEnv [["s", "AStreamingEvent.json"]] ["a"] [HVal.ref 4]
     ⟨[(0, [("$ref", HVal.str "Base.json")]),
       (1, [("const", HVal.str "a")]),
       (2, [("type", HVal.ref 1)]),
       (3, [("type", HVal.str "object"), ("properties", HVal.ref 2),
            ("required", HVal.arr [HVal.str "type"])]),
       (4, [("type", HVal.str "a"), ("sequence_number", HVal.int 1)])],
      5,
      [(["s", "AStreamingEvent.json"], HVal.ref 0), (["s", "Base.json"], HVal.ref 3)],
      [(["s", "Base.json"], HVal.ref 4)]⟩ rfl,
   C5_sequence_contiguity.2 [HVal.ref 0] ⟨[(0, [])], 1, [], []⟩
     (by intro e he; rw [List.mem_singleton.mp he]; rfl)
     (by simp [addrOf]) 0 (by decide)⟩

/-- C7: with the index the run built from the schema files, if one or more
allow-listed type strings have no indexed event then the run aborts with
`SystemExit` carrying exactly those missing type strings (in allow-list
order); otherwise assembly succeeds. -/
theorem C7_missing_coverage (env : SEnv) (files : List SPath)
    (allowed : List String) (m : List (String × Value)) (st' : St)
    (hb : buildIndex env allowed files [] emptySt = .ok (m, st')) :
    ((allowed.filter (fun t => (alook m t).isNone)) ≠ [] →
      generate_events env files allowed
        = .error (.systemExit (allowed.filter (fun t => (alook m t).isNone)))) ∧
    ((allowed.filter (fun t => (alook m t).isNone)) = [] →
      ∃ evs, generate_events env files allowed = .ok evs) := by
  constructor
  · intro hne
    have hF : ¬((allowed.filter (fun t => (alook m t).isNone)).isEmpty = true) := by
      rw [List.isEmpty_iff]
      exact hne
    unfold generate_events
    simp only [hb]
    rw [if_neg hF]
  · intro he
    have hT : (allowed.filter (fun t => (alook m t).isNone)).isEmpty = true := by
      rw [List.isEmpty_iff]
      exact he
    unfold generate_events
    simp only [hb]
    rw [if_pos hT]
    exact ⟨_, rfl⟩

/-- C7 witness: with no schema files at all, the allow-list entry `"a"` is
missing and the run aborts naming exactly it. -/
theorem C7_missing_coverage_witness :
    (((["a"] : List String).filter (fun t => (alook ([] : List (String × Value)) t).isNone)) ≠ [] →
      generate_events [] [] ["a"]
        = .error (.systemExit ((["a"] : List String).filter
            (fun t => (alook ([] : List (String × Value)) t).isNone)))) ∧
    (((["a"] : List String).filter (fun t => (alook ([] : List (String × Value)) t).isNone)) = [] →
      ∃ evs, generate_events [] [] ["a"] = .ok evs) :=
  C7_missing_coverage [] [] ["a"] [] emptySt rfl

/-! ### C8: format equivalence of the two artifacts -/

theorem dataLine?_data (s : String) : dataLine? ("data: " ++ s) = some s := by
  unfold dataLine?
  rw [if_pos]
  · show some (String.mk (("data: ".data ++ s.data).drop 6)) = some s
    rw [show (6 : Nat) = ("data: ".data).length from rfl, List.drop_left]
  · show ("data: ".data).isPrefixOf ("data: ".data ++ s.data) = true
    rw [List.isPrefixOf_iff_prefix]
    exact List.prefix_append _ _

theorem dataLine?_event (t : String) : dataLine? ("event: " ++ t) = none := by
  unfold dataLine?
  have hfalse : ("data: ".toList).isPrefixOf (("event: " ++ t).toList) = false := by
    show ("data: ".data).isPrefixOf ("event: ".data ++ t.data) = false
    rfl
  simp [hfalse]

theorem eventPref_event (t : String) :
    ("event: ".toList).isPrefixOf (("event: " ++ t).toList) = true := by
  show ("event: ".data).isPrefixOf ("event: ".data ++ t.data) = true
  rw [List.isPrefixOf_iff_prefix]
  exact List.prefix_append _ _

theorem eventPref_data (s : String) :
    ("event: ".toList).isPrefixOf (("data: " ++ s).toList) = false := by
  show ("event: ".data).isPrefixOf ("data: ".data ++ s.data) = false
  rfl

theorem sse_lines_cons (e : Value) (rest : List Value) :
    sse_lines (e :: rest) = perEventSse e ++ sse_lines rest := by
  simp [sse_lines]

theorem dataLines_perEvent (e : Value) : dataLines (perEventSse e) = [dumps e] := by
  unfold perEventSse dataLines
  by_cases hty : pyTruthy (match e with
    | Value.obj kvs => (alook kvs "type").getD (.str "")
    | _ => .str "")
  · simp [hty, List.filterMap_cons, dataLine?_event, dataLine?_data,
      show dataLine? "" = none from rfl]
  · simp [hty, List.filterMap_cons, dataLine?_data,
      show dataLine? "" = none from rfl]

theorem dataLines_sse (evs : List Value) :
    dataLines (sse_lines evs) = jsonl_lines evs ++ ["[DONE]"] := by
  induction evs with
  | nil => rfl
  | cons e rest ih =>
    rw [sse_lines_cons]
    unfold dataLines at ih ⊢
    rw [List.filterMap_append, ih]
    show dataLines (perEventSse e) ++ _ = _
    rw [dataLines_perEvent]
    simp [jsonl_lines]

theorem filter_event_perEvent (e : Value) (h : typeOkB e = true) :
    (perEventSse e).filter (fun l => ("event: ".toList).isPrefixOf l.toList)
      = (typeLine e).toList := by
  cases e with
  | obj kvs =>
    cases hty : alook kvs "type" with
    | none =>
      simp [perEventSse, hty, pyTruthy, typeLine, List.filter_cons, eventPref_data,
        show "".isEmpty = true from rfl,
        show ("event: ".toList).isPrefixOf ("".toList) = false from rfl]
    | some tv =>
      cases tv with
      | str t =>
        by_cases hemp : t.isEmpty
        · have : pyTruthy (Value.str t) = false := by simp [pyTruthy, hemp]
          simp [perEventSse, hty, this, typeLine, hemp, List.filter_cons, eventPref_data,
            show ("event: ".toList).isPrefixOf ("".toList) = false from rfl]
        · have : pyTruthy (Value.str t) = true := by simp [pyTruthy, hemp]
          simp [perEventSse, hty, this, typeLine, hemp, List.filter_cons, eventPref_event,
            eventPref_data, pyFStr,
            show ("event: ".toList).isPrefixOf ("".toList) = false from rfl]
      | null => simp [typeOkB, hty] at h
      | bool b => simp [typeOkB, hty] at h
      | int n => simp [typeOkB, hty] at h
      | arr xs => simp [typeOkB, hty] at h
      | obj kvs2 => simp [typeOkB, hty] at h
  | null =>
    simp [perEventSse, pyTruthy, typeLine, List.filter_cons, eventPref_data,
      show "".isEmpty = true from rfl,
      show ("event: ".toList).isPrefixOf ("".toList) = false from rfl]
  | bool b =>
    simp [perEventSse, pyTruthy, typeLine, List.filter_cons, eventPref_data,
      show "".isEmpty = true from rfl,
      show ("event: ".toList).isPrefixOf ("".toList) = false from rfl]
  | int n =>
    simp [perEventSse, pyTruthy, typeLine, List.filter_cons, eventPref_data,
      show "".isEmpty = true from rfl,
      show ("event: ".toList).isPrefixOf ("".toList) = false from rfl]
  | str s =>
    simp [perEventSse, pyTruthy, typeLine, List.filter_cons, eventPref_data,
      show "".isEmpty = true from rfl,
      show ("event: ".toList).isPrefixOf ("".toList) = false from rfl]
  | arr xs =>
    simp [perEventSse, pyTruthy, typeLine, List.filter_cons, eventPref_data,
      show "".isEmpty = true from rfl,
      show ("event: ".toList).isPrefixOf ("".toList) = false from rfl]

/-- C8: for the same ordered event list, the `data:` payloads of the
text-streaming lines minus the terminating marker are exactly the
line-delimited lines (both carry the identical compact key-sorted encoding of
each event, so any decoder yields the same objects in the same order); the
text-streaming output ends with the literal `data: [DONE]` record followed by
a blank line; and its `event:` lines are exactly one `event: <type>` line per
event whose `type` string is non-empty. -/
theorem filter_event_sse (evs : List Value) (h : ∀ e ∈ evs, typeOkB e = true) :
    (sse_lines evs).filter (fun l => ("event: ".toList).isPrefixOf l.toList)
      = evs.filterMap typeLine := by
  induction evs with
  | nil => rfl
  | cons e rest ih =>
    rw [sse_lines_cons, List.filter_append,
      filter_event_perEvent e (h e (List.mem_cons_self e rest)),
      ih (fun x hx => h x (List.mem_cons_of_mem e hx))]
    cases hc : typeLine e <;> simp [List.filterMap_cons, hc, Option.toList]

theorem C8_format_equivalence (evs : List Value)
    (h : ∀ e ∈ evs, typeOkB e = true) :
    (dataLines (sse_lines evs)).dropLast = jsonl_lines evs ∧
    (∀ (decode : String → Value),
      ((dataLines (sse_lines evs)).dropLast).map decode
        = (jsonl_lines evs).map decode) ∧
    (∃ pre, sse_lines evs = pre ++ ["data: [DONE]", ""]) ∧
    ((sse_lines evs).filter (fun l => ("event: ".toList).isPrefixOf l.toList)
      = evs.filterMap typeLine) := by
  have h1 : (dataLines (sse_lines evs)).dropLast = jsonl_lines evs := by
    rw [dataLines_sse]
    exact List.dropLast_concat
  exact ⟨h1, fun decode => by rw [h1], ⟨(evs.map perEventSse).flatten, rfl⟩,
    filter_event_sse evs h⟩

/-- C8 witness: the equivalence at a concrete one-event list. -/
theorem C8_format_equivalence_witness :
    (dataLines (sse_lines [Value.obj [("type", Value.str "a")]])).dropLast
      = jsonl_lines [Value.obj [("type", Value.str "a")]] ∧
    (∀ (decode : String → Value),
      ((dataLines (sse_lines [Value.obj [("type", Value.str "a")]])).dropLast).map decode
        = (jsonl_lines [Value.obj [("type", Value.str "a")]]).map decode) ∧
    (∃ pre, sse_lines [Value.obj [("type", Value.str "a")]]
      = pre ++ ["data: [DONE]", ""]) ∧
    ((sse_lines [Value.obj [("type", Value.str "a")]]).filter
        (fun l => ("event: ".toList).isPrefixOf l.toList)
      = [Value.obj [("type", Value.str "a")]].filterMap typeLine) :=
  C8_format_equivalence [Value.obj [("type", Value.str "a")]] (by
    intro e he
    rw [List.mem_singleton.mp he]
    rfl)

/-! ### C2: the sample cache across a run -/

set_option maxHeartbeats 1000000 in
/-- C2 counterexample: on the machine, the cache stores the returned object
itself, so a later `allOf` merge mutates a cached sample in place.  With the
sample for `B.json` already cached as the dict at address 0 holding
`{"a": 1}`, sampling `{"allOf": [{"$ref": "B.json"}, {"type": "object",
"properties": {"c": {"const": 2}}, "required": ["c"]}]}` takes the cached
object as the merge accumulator and `merged.update(val)` rewrites it: after
the call the entry for `B.json` still points at address 0, but the object
there now holds `{"a": 1, "c": 2}` — the retrievable value changed even
though the entry was present when the call started. -/
theorem C2_cache_counterexample :
    heapGet aliasSt0 0 = [("a", HVal.int 1)] ∧
    alook aliasSt0.cache ["schemas", "B.json"] = some (HVal.ref 0) ∧
    (hSampleF [] 41 (.ref 5) ["schemas"] aliasSt0).map
        (fun pr => (pr.1, heapGet pr.2 0, alook pr.2.cache ["schemas", "B.json"])) =
      .ok (HVal.ref 0, [("a", HVal.int 1), ("c", HVal.int 2)], some (HVal.ref 0)) ∧
    ([("a", HVal.int 1)] : List (String × HVal)) ≠ [("a", HVal.int 1), ("c", HVal.int 2)] :=
  ⟨rfl, rfl, by rfl, by
    intro hc
    injection hc with h1 h2
    exact List.noConfusion h2⟩

/-- C2 (amended): what sampling really guarantees about the sample cache is
presence, not immutability.  Once a path has an entry, every later sampling
step keeps some entry for that path (writes only add paths or rebind
existing ones, never remove them); a call whose schema is a reference to an
already-cached path returns the cached object at once, with no state change
at all; type-field synthesis never touches the cache; and sequence-number
stamping rebinds no cache entry (it mutates the objects the entries point
at, not the cache itself).  The value retrievable under a cached path can
still change, both by cycle rebinding and by in-place mutation of the cached
object, as the counterexample shows. -/
theorem C2_cache_persistence :
    (∀ (env : SEnv) (fuel : Nat) (schema : HVal) (b : SPath) (st : HSt)
       (r : HVal) (st' : HSt),
       hSampleF env fuel schema b st = .ok (r, st') →
       ∀ p, (alook st.cache p).isSome → (alook st'.cache p).isSome) ∧
    (∀ (env : SEnv) (fuel : Nat) (a : Addr) (rr : String) (b : SPath) (st : HSt) (v : HVal),
       alook (heapGet st a) "$ref" = some (.str rr) →
       alook st.cache (resolve_ref rr b) = some v →
       hSampleF env (fuel + 1) (.ref a) b st = .ok (v, st)) ∧
    (∀ (event schema : HVal) (st st' : HSt),
       ensure_type_fieldH event schema st = .ok st' → st'.cache = st.cache) ∧
    (∀ (events : List HVal) (st : HSt), (hStamp events st).cache = st.cache) := by
  refine ⟨?_, ?_, ensure_type_fieldH_cache, fun events st => hStampFrom_cache events 1 st⟩
  · intro env fuel schema b st r st' h p hp
    exact hSampleF_cache_mono env fuel schema b st r st' h p hp
  · intro env fuel a rr b st v h1 h2
    show hSampleF env (fuel + 1) (.ref a) b st = .ok (v, st)
    simp only [hSampleF, h1, h2]

/-- C2 witness: the four conjuncts applied at concrete inputs — a trivial
run preserving a one-entry cache, a cache hit returning the stored value
unchanged, type synthesis on a non-mapping event, and stamping an empty
event list. -/
theorem C2_cache_persistence_witness :
    (alook (HSt.mk [] 0 [] [(["p"], HVal.null)]).cache ["p"]).isSome ∧
    hSampleF [] 1 (.ref 0) ["schemas"]
        ⟨[(0, [("$ref", HVal.str "B.json")])], 1, [], [(["schemas", "B.json"], HVal.int 7)]⟩
      = .ok (HVal.int 7,
          ⟨[(0, [("$ref", HVal.str "B.json")])], 1, [], [(["schemas", "B.json"], HVal.int 7)]⟩) ∧
    (HSt.mk [] 0 [] [(["q"], HVal.null)]).cache = (HSt.mk [] 0 [] [(["q"], HVal.null)]).cache :=
  ⟨C2_cache_persistence.1 [] 0 HVal.null [] (HSt.mk [] 0 [] [(["p"], HVal.null)]) HVal.null
     (HSt.mk [] 0 [] [(["p"], HVal.null)]) rfl ["p"] rfl,
   C2_cache_persistence.2.1 [] 0 0 "B.json" ["schemas"]
     ⟨[(0, [("$ref", HVal.str "B.json")])], 1, [], [(["schemas", "B.json"], HVal.int 7)]⟩
     (HVal.int 7) rfl rfl,
   (C2_cache_persistence.2.2.1 HVal.null HVal.null (HSt.mk [] 0 [] [(["q"], HVal.null)])
     (HSt.mk [] 0 [] [(["q"], HVal.null)]) rfl).symm ▸ rfl⟩

/-! ### C3: failure semantics of the sampler -/

theorem wfSList_mem {xs : List Value} {x : Value}
    (h : wfSList xs = true) (hx : x ∈ xs) : wfS x = true := by
  induction xs with
  | nil => cases hx
  | cons y ys ih =>
    rw [wfSList] at h
    rcases List.mem_cons.mp hx with rfl | hmem
    · exact (Bool.and_eq_true_iff.mp h).1
    · exact ih (Bool.and_eq_true_iff.mp h).2 hmem

theorem wfSPairs_mem {kvs : List (String × Value)} {k : String} {w : Value}
    (h : wfSPairs kvs = true) (hm : (k, w) ∈ kvs) : wfS w = true := by
  induction kvs with
  | nil => cases hm
  | cons y ys ih =>
    obtain ⟨k0, v0⟩ := y
    rw [wfSPairs] at h
    rcases List.mem_cons.mp hm with heq | hmem
    · cases heq
      exact (Bool.and_eq_true_iff.mp h).1
    · exact ih (Bool.and_eq_true_iff.mp h).2 hmem

theorem wfSPairs_alook {kvs : List (String × Value)} {k : String} {w : Value}
    (h : wfSPairs kvs = true) (ha : alook kvs k = some w) : wfS w = true :=
  wfSPairs_mem h (alook_mem kvs k w ha)

theorem wfEnv_alook {env : SEnv} {q : SPath} {rs : Value}
    (h : wfEnv env = true) (ha : alook env q = some rs) : wfS rs = true := by
  have hm := alook_mem env q rs ha
  exact List.all_eq_true.mp h (q, rs) hm

theorem wfS_obj {kvs : List (String × Value)} (h : wfS (.obj kvs) = true) :
    wfShape kvs = true ∧ wfSPairs kvs = true := by
  rw [wfS] at h
  exact Bool.and_eq_true_iff.mp h

/-- The getD-defaults the sampler uses are well formed. -/
theorem wfS_getD_obj {kvs : List (String × Value)} (hp : wfSPairs kvs = true)
    (k : String) : wfS ((alook kvs k).getD (.obj [])) = true := by
  cases ha : alook kvs k with
  | none => rfl
  | some w => exact wfSPairs_alook hp ha

theorem stateMapM_no_err (f : Value → St → Except Err (Value × St))
    (l : List Value) (hf : NoErrF f l) :
    ∀ st, (∃ vs st', stateMapM f l st = .ok (vs, st')) ∨
          (∃ q, stateMapM f l st = .error (.ioError q)) := by
  induction l with
  | nil => intro st; exact Or.inl ⟨[], st, rfl⟩
  | cons o rest ih =>
    intro st
    rcases hf o (List.mem_cons_self o rest) st with ⟨r, st1, h1⟩ | ⟨q, h1⟩
    · rcases ih (fun x hx => hf x (List.mem_cons_of_mem o hx)) st1 with
        ⟨vs, st2, h2⟩ | ⟨q, h2⟩
      · exact Or.inl ⟨r :: vs, st2, by simp only [stateMapM, h1, h2]⟩
      · exact Or.inr ⟨q, by simp only [stateMapM, h1, h2]⟩
    · exact Or.inr ⟨q, by simp only [stateMapM, h1]⟩

theorem pyIterStrings_arr_ok (xs : List Value)
    (h : xs.all (fun nm => match nm with | Value.str _ => true | _ => false) = true) :
    ∃ names, pyIterStrings (.arr xs) = .ok names := by
  induction xs with
  | nil => exact ⟨[], rfl⟩
  | cons x rest ih =>
    rw [List.all_cons, Bool.and_eq_true_iff] at h
    obtain ⟨names, hn⟩ := ih h.2
    cases x with
    | str s =>
      refine ⟨s :: names, ?_⟩
      simp only [pyIterStrings, List.mapM_cons] at hn ⊢
      rw [hn]
      rfl
    | null => simp at h
    | bool b => simp at h
    | int n => simp at h
    | arr ys => simp at h
    | obj kvs => simp at h

theorem propsSubs_ok (pk : List (String × Value)) (names : List String) :
    propsSubs (.obj pk) names
      = .ok (names.map (fun n => (alook pk n).getD (.obj []))) := by
  induction names with
  | nil => rfl
  | cons n rest ih =>
    simp only [propsSubs, List.mapM_cons, List.map_cons] at ih ⊢
    rw [ih]
    rfl

set_option maxHeartbeats 1000000 in
theorem sampleF_dispatch_no_error (env : SEnv) (n : Nat)
    (ih : ∀ (s : Value) (b : SPath) (st : St), wfS s = true →
      (∃ r st', sampleF env n s b st = .ok (r, st')) ∨
      (∃ q, sampleF env n s b st = .error (.ioError q)))
    (b : SPath) (st : St) (kvs : List (String × Value))
    (hpairs : wfSPairs kvs = true)
    (hprop2 : alook kvs "properties" = none ∨
      ∃ pk, alook kvs "properties" = some (.obj pk))
    (hreq2 : alook kvs "required" = none ∨
      (∃ names, alook kvs "required" = some (.arr names) ∧
        names.all (fun nm => match nm with | Value.str _ => true | _ => false) = true) ∨
      (∃ s2, alook kvs "required" = some (.str s2)) ∨
      (∃ rk, alook kvs "required" = some (.obj rk)))
    (hmi2 : alook kvs "minItems" = none ∨
      (∃ i, alook kvs "minItems" = some (.int i)) ∨
      (∃ b2, alook kvs "minItems" = some (.bool b2)))
    (hml2 : alook kvs "minLength" = none ∨
      (∃ i, alook kvs "minLength" = some (.int i)) ∨
      (∃ b2, alook kvs "minLength" = some (.bool b2)))
    (hmin2 : alook kvs "minimum" = none ∨
      (∃ i, alook kvs "minimum" = some (.int i)) ∨
      (∃ b2, alook kvs "minimum" = some (.bool b2)))
    (hr : alook kvs "$ref" = none) (hcst : alook kvs "const" = none)
    (hen : alook kvs "enum" = none) (hoo : alook kvs "oneOf" = none)
    (hao : alook kvs "anyOf" = none) (hal : alook kvs "allOf" = none) :
    (∃ r st', sampleF env (n + 1) (.obj kvs) b st = .ok (r, st')) ∨
    (∃ q, sampleF env (n + 1) (.obj kvs) b st = .error (.ioError q)) := by
  have hnames : ∃ names, pyIterStrings ((alook kvs "required").getD (Value.arr []))
      = .ok names := by
    rcases hreq2 with h0 | ⟨names, h1, hallstr⟩ | ⟨s2, h1⟩ | ⟨rk, h1⟩
    · rw [h0]; exact ⟨[], rfl⟩
    · rw [h1]; exact pyIterStrings_arr_ok names hallstr
    · rw [h1]; exact ⟨_, rfl⟩
    · rw [h1]; exact ⟨_, rfl⟩
  obtain ⟨names, hnames⟩ := hnames
  have hpk : ∃ pk, (alook kvs "properties").getD (Value.obj []) = .obj pk ∧
      wfSPairs pk = true := by
    rcases hprop2 with h0 | ⟨pk, h1⟩
    · rw [h0]; exact ⟨[], rfl, rfl⟩
    · rw [h1]
      have hw := wfSPairs_alook hpairs h1
      rw [wfS] at hw
      exact ⟨pk, rfl, (Bool.and_eq_true_iff.mp hw).2⟩
  obtain ⟨pk, hpkeq, hpkwf⟩ := hpk
  have hsubs : propsSubs ((alook kvs "properties").getD (Value.obj [])) names
      = .ok (names.map (fun nm => (alook pk nm).getD (Value.obj []))) := by
    rw [hpkeq]; exact propsSubs_ok pk names
  have hsubswf : ∀ o ∈ names.map (fun nm => (alook pk nm).getD (Value.obj [])),
      wfS o = true := by
    intro o ho
    obtain ⟨nm, _, rfl⟩ := List.mem_map.mp ho
    exact wfS_getD_obj hpkwf nm
  by_cases hobj : ((match alook kvs "type" with
      | some (Value.str s) => some s
      | _ => none) = some "object" ∨ (alook kvs "properties").isSome = true)
  · have hnoerr : NoErrF (fun o s0 => sampleF env n o b s0)
        (names.map (fun nm => (alook pk nm).getD (Value.obj []))) :=
      fun o ho s0 => ih o b s0 (hsubswf o ho)
    rcases stateMapM_no_err _ _ hnoerr st with ⟨vs, st1, hsm⟩ | ⟨q, hsm⟩
    · by_cases hc2 : (((names.zip vs).foldl (fun acc nv => aset acc nv.1 nv.2)
          ([] : List (String × Value))).isEmpty = true
          ∧ pyTruthy ((alook kvs "additionalProperties").getD .null) = true)
      · refine Or.inl ⟨.obj [], st1, ?_⟩
        simp only [sampleF, hr, hcst, hen, hoo, hao, hal]
        rw [if_pos hobj]
        simp only [hnames, hsubs, hsm]
        rw [if_pos hc2]
      · refine Or.inl ⟨.obj ((names.zip vs).foldl (fun acc nv => aset acc nv.1 nv.2)
          ([] : List (String × Value))), st1, ?_⟩
        simp only [sampleF, hr, hcst, hen, hoo, hao, hal]
        rw [if_pos hobj]
        simp only [hnames, hsubs, hsm]
        rw [if_neg hc2]
    · refine Or.inr ⟨q, ?_⟩
      simp only [sampleF, hr, hcst, hen, hoo, hao, hal]
      rw [if_pos hobj]
      simp only [hnames, hsubs, hsm]
  · have hitems : wfS ((alook kvs "items").getD (Value.obj [])) = true :=
      wfS_getD_obj hpairs "items"
    by_cases harr : ((match alook kvs "type" with
        | some (Value.str s) => some s
        | _ => none) = some "array")
    · have hgt : ∃ bb, pyGtZero ((alook kvs "minItems").getD (Value.int 0)) = .ok bb := by
        rcases hmi2 with h0 | ⟨i, h1⟩ | ⟨b2, h1⟩
        · rw [h0]; exact ⟨_, rfl⟩
        · rw [h1]; exact ⟨_, rfl⟩
        · rw [h1]; exact ⟨_, rfl⟩
      obtain ⟨bb, hgt⟩ := hgt
      cases bb with
      | true =>
        have hnoerr : NoErrF (fun o s0 => sampleF env n o b s0)
            (List.replicate (vToNat ((alook kvs "minItems").getD (Value.int 0)))
              ((alook kvs "items").getD (Value.obj []))) := by
          intro o ho s0
          rw [List.eq_of_mem_replicate ho]
          exact ih _ b s0 hitems
        rcases stateMapM_no_err _ _ hnoerr st with ⟨vs, st1, hsm⟩ | ⟨q, hsm⟩
        · refine Or.inl ⟨.arr vs, st1, ?_⟩
          simp only [sampleF, hr, hcst, hen, hoo, hao, hal]
          rw [if_neg hobj, if_pos harr]
          simp only [hgt, hsm]
        · refine Or.inr ⟨q, ?_⟩
          simp only [sampleF, hr, hcst, hen, hoo, hao, hal]
          rw [if_neg hobj, if_pos harr]
          simp only [hgt, hsm]
      | false =>
        refine Or.inl ⟨.arr [], st, ?_⟩
        simp only [sampleF, hr, hcst, hen, hoo, hao, hal]
        rw [if_neg hobj, if_pos harr]
        simp only [hgt]
    · by_cases hstr : ((match alook kvs "type" with
          | some (Value.str s) => some s
          | _ => none) = some "string")
      · cases hdef : alook kvs "default" with
        | some d =>
          refine Or.inl ⟨d, st, ?_⟩
          simp only [sampleF, hr, hcst, hen, hoo, hao, hal]
          rw [if_neg hobj, if_neg harr, if_pos hstr]
          simp only [hdef]
        | none =>
          have hml3 : ∃ r2, (match alook kvs "minLength" with
              | some ml => (match pyInt ml with
                | .error e => Except.error e
                | .ok n2 => Except.ok (Value.str (mkFiller n2), st))
              | none => Except.ok (Value.str "", st)) = Except.ok r2 := by
            rcases hml2 with h0 | ⟨i, h1⟩ | ⟨b2, h1⟩
            · rw [h0]; exact ⟨_, rfl⟩
            · rw [h1]; exact ⟨_, rfl⟩
            · rw [h1]; exact ⟨_, rfl⟩
          obtain ⟨r2, hml3⟩ := hml3
          refine Or.inl ⟨r2.1, r2.2, ?_⟩
          simp only [sampleF, hr, hcst, hen, hoo, hao, hal]
          rw [if_neg hobj, if_neg harr, if_pos hstr]
          simp only [hdef, hml3]
      · by_cases hint : ((match alook kvs "type" with
            | some (Value.str s) => some s
            | _ => none) = some "integer")
        · cases hdef : alook kvs "default" with
          | some d =>
            refine Or.inl ⟨d, st, ?_⟩
            simp only [sampleF, hr, hcst, hen, hoo, hao, hal]
            rw [if_neg hobj, if_neg harr, if_neg hstr, if_pos hint]
            simp only [hdef]
          | none =>
            have hmin3 : ∃ r2, (match alook kvs "minimum" with
                | some m => (match pyInt m with
                  | .error e => Except.error e
                  | .ok n2 => Except.ok (Value.int n2, st))
                | none => Except.ok (Value.int 0, st)) = Except.ok r2 := by
              rcases hmin2 with h0 | ⟨i, h1⟩ | ⟨b2, h1⟩
              · rw [h0]; exact ⟨_, rfl⟩
              · rw [h1]; exact ⟨_, rfl⟩
              · rw [h1]; exact ⟨_, rfl⟩
            obtain ⟨r2, hmin3⟩ := hmin3
            refine Or.inl ⟨r2.1, r2.2, ?_⟩
            simp only [sampleF, hr, hcst, hen, hoo, hao, hal]
            rw [if_neg hobj, if_neg harr, if_neg hstr, if_pos hint]
            simp only [hdef, hmin3]
        · by_cases hnum : ((match alook kvs "type" with
              | some (Value.str s) => some s
              | _ => none) = some "number")
          · cases hdef : alook kvs "default" with
            | some d =>
              refine Or.inl ⟨d, st, ?_⟩
              simp only [sampleF, hr, hcst, hen, hoo, hao, hal]
              rw [if_neg hobj, if_neg harr, if_neg hstr, if_neg hint, if_pos hnum]
              simp only [hdef]
            | none =>
              cases hmn : alook kvs "minimum" with
              | some m =>
                refine Or.inl ⟨m, st, ?_⟩
                simp only [sampleF, hr, hcst, hen, hoo, hao, hal]
                rw [if_neg hobj, if_neg harr, if_neg hstr, if_neg hint, if_pos hnum]
                simp only [hdef, hmn]
              | none =>
                refine Or.inl ⟨.int 0, st, ?_⟩
                simp only [sampleF, hr, hcst, hen, hoo, hao, hal]
                rw [if_neg hobj, if_neg harr, if_neg hstr, if_neg hint, if_pos hnum]
                simp only [hdef, hmn]
          · by_cases hbool : ((match alook kvs "type" with
                | some (Value.str s) => some s
                | _ => none) = some "boolean")
            · cases hdef : alook kvs "default" with
              | some d =>
                refine Or.inl ⟨d, st, ?_⟩
                simp only [sampleF, hr, hcst, hen, hoo, hao, hal]
                rw [if_neg hobj, if_neg harr, if_neg hstr, if_neg hint, if_neg hnum,
                  if_pos hbool]
                simp only [hdef]
              | none =>
                refine Or.inl ⟨.bool false, st, ?_⟩
                simp only [sampleF, hr, hcst, hen, hoo, hao, hal]
                rw [if_neg hobj, if_neg harr, if_neg hstr, if_neg hint, if_neg hnum,
                  if_pos hbool]
                simp only [hdef]
            · by_cases hnull : ((match alook kvs "type" with
                  | some (Value.str s) => some s
                  | _ => none) = some "null")
              · refine Or.inl ⟨.null, st, ?_⟩
                simp only [sampleF, hr, hcst, hen, hoo, hao, hal]
                rw [if_neg hobj, if_neg harr, if_neg hstr, if_neg hint, if_neg hnum,
                  if_neg hbool, if_pos hnull]
              · refine Or.inl ⟨.obj [], st, ?_⟩
                simp only [sampleF, hr, hcst, hen, hoo, hao, hal]
                rw [if_neg hobj, if_neg harr, if_neg hstr, if_neg hint, if_neg hnum,
                  if_neg hbool, if_neg hnull]

set_option maxHeartbeats 1000000 in
theorem sampleF_no_runtime_error (env : SEnv) (henv : wfEnv env = true) :
    ∀ (n : Nat) (s : Value) (b : SPath) (st : St), wfS s = true →
      (∃ r st', sampleF env n s b st = .ok (r, st')) ∨
      (∃ q, sampleF env n s b st = .error (.ioError q)) := by
  intro n
  induction n with
  | zero => intro s b st _; exact Or.inl ⟨.null, st, rfl⟩
  | succ n ih =>
    intro s b st hwf
    cases s with
    | null => exact Or.inl ⟨_, st, rfl⟩
    | bool bb => exact Or.inl ⟨_, st, rfl⟩
    | int nn => exact Or.inl ⟨_, st, rfl⟩
    | str ss => exact Or.inl ⟨_, st, rfl⟩
    | arr xs => exact Or.inl ⟨_, st, rfl⟩
    | obj kvs =>
      obtain ⟨hshape, hpairs⟩ := wfS_obj hwf
      simp only [wfShape, Bool.and_eq_true] at hshape
      obtain ⟨⟨⟨⟨⟨⟨⟨⟨⟨href, henu⟩, hone⟩, hany⟩, hall⟩, hprop⟩, hreq⟩, hmi⟩,
        hml⟩, hmin⟩ := hshape
      cases hr : alook kvs "$ref" with
      | some refv =>
        rw [hr] at href
        cases refv with
        | str rr =>
          cases hc : alook st.cache (resolve_ref rr b) with
          | some v0 => exact Or.inl ⟨v0, st, by simp only [sampleF, hr, hc]⟩
          | none =>
            cases hl : alook env (resolve_ref rr b) with
            | none =>
              exact Or.inr ⟨resolve_ref rr b,
                by simp only [sampleF, hr, hc, load_schema, hl]⟩
            | some rs =>
              have hwrs := wfEnv_alook henv hl
              rcases ih rs (sparent (resolve_ref rr b)) st hwrs with
                ⟨r, st1, hrec⟩ | ⟨q, hrec⟩
              · exact Or.inl ⟨r, ⟨aset st1.cache (resolve_ref rr b) r,
                    st1.log ++ [(resolve_ref rr b, r)]⟩,
                  by simp only [sampleF, hr, hc, load_schema, hl, hrec]⟩
              · exact Or.inr ⟨q,
                  by simp only [sampleF, hr, hc, load_schema, hl, hrec]⟩
        | null => simp at href
        | bool b2 => simp at href
        | int n2 => simp at href
        | arr xs2 => simp at href
        | obj kvs2 => simp at href
      | none =>
        cases hcst : alook kvs "const" with
        | some c => exact Or.inl ⟨c, st, by simp only [sampleF, hr, hcst]⟩
        | none =>
          cases hen : alook kvs "enum" with
          | some ev =>
            rw [hen] at henu
            cases ev with
            | arr exs =>
              cases exs with
              | nil => simp at henu
              | cons e0 erest =>
                exact Or.inl ⟨e0, st,
                  by simp only [sampleF, hr, hcst, hen, pySubscript0]⟩
            | str es =>
              have hne : es ≠ "" := by
                intro he
                subst he
                exact absurd henu (by decide)
              cases hes : es.toList with
              | nil =>
                exact absurd (String.ext (show es.data = ("" : String).data from hes)) hne
              | cons c0 crest =>
                exact Or.inl ⟨.str (String.mk [c0]), st,
                  by simp only [sampleF, hr, hcst, hen, pySubscript0, hes]⟩
            | null => simp at henu
            | bool b2 => simp at henu
            | int n2 => simp at henu
            | obj kvs2 => simp at henu
          | none =>
            cases hoo : alook kvs "oneOf" with
            | some ov =>
              rw [hoo] at hone
              cases ov with
              | arr oxs =>
                have hwov : wfS (.arr oxs) = true := wfSPairs_alook hpairs hoo
                rw [wfS] at hwov
                cases hfind : oxs.find? (fun o => !isNullTyped o) with
                | some opt =>
                  have hopt : wfS opt = true :=
                    wfSList_mem hwov (List.mem_of_find?_eq_some hfind)
                  rcases ih opt b st hopt with ⟨r, st1, hrec⟩ | ⟨q, hrec⟩
                  · exact Or.inl ⟨r, st1,
                      by simp only [sampleF, hr, hcst, hen, hoo, pyIterVals, hfind, hrec]⟩
                  · exact Or.inr ⟨q,
                      by simp only [sampleF, hr, hcst, hen, hoo, pyIterVals, hfind, hrec]⟩
                | none =>
                  exact Or.inl ⟨.null, st,
                    by simp only [sampleF, hr, hcst, hen, hoo, pyIterVals, hfind]⟩
              | null => simp at hone
              | bool b2 => simp at hone
              | int n2 => simp at hone
              | str s2 => simp at hone
              | obj kvs2 => simp at hone
            | none =>
              cases hao : alook kvs "anyOf" with
              | some av =>
                rw [hao] at hany
                cases av with
                | arr axs =>
                  cases axs with
                  | nil => simp at hany
                  | cons a0 arest =>
                    have hwav : wfS (.arr (a0 :: arest)) = true :=
                      wfSPairs_alook hpairs hao
                    rw [wfS] at hwav
                    by_cases hanyn : (a0 :: arest).any isNullTyped = true
                    · exact Or.inl ⟨.null, st, by
                        simp only [sampleF, hr, hcst, hen, hoo, hao, pyIterVals]
                        rw [if_pos hanyn]⟩
                    · have hA : wfS a0 = true :=
                        wfSList_mem hwav (List.mem_cons_self a0 arest)
                      rcases ih a0 b st hA with ⟨r, st1, hrec⟩ | ⟨q, hrec⟩
                      · exact Or.inl ⟨r, st1, by
                          simp only [sampleF, hr, hcst, hen, hoo, hao, pyIterVals]
                          rw [if_neg hanyn]
                          simp only [pySubscript0, hrec]⟩
                      · exact Or.inr ⟨q, by
                          simp only [sampleF, hr, hcst, hen, hoo, hao, pyIterVals]
                          rw [if_neg hanyn]
                          simp only [pySubscript0, hrec]⟩
                | null => simp at hany
                | bool b2 => simp at hany
                | int n2 => simp at hany
                | str s2 => simp at hany
                | obj kvs2 => simp at hany
              | none =>
                cases hal : alook kvs "allOf" with
                | some lv =>
                  rw [hal] at hall
                  cases lv with
                  | arr lxs =>
                    have hwlv : wfS (.arr lxs) = true := wfSPairs_alook hpairs hal
                    rw [wfS] at hwlv
                    have hnoerr : NoErrF (fun o s0 => sampleF env n o b s0) lxs :=
                      fun o ho s0 => ih o b s0 (wfSList_mem hwlv ho)
                    rcases stateMapM_no_err _ lxs hnoerr st with
                      ⟨vs, st1, hsm⟩ | ⟨q, hsm⟩
                    · exact Or.inl ⟨vs.foldl allOfStep .null, st1,
                        by simp only [sampleF, hr, hcst, hen, hoo, hao, hal,
                          pyIterVals, hsm]⟩
                    · exact Or.inr ⟨q,
                        by simp only [sampleF, hr, hcst, hen, hoo, hao, hal,
                          pyIterVals, hsm]⟩
                  | null => simp at hall
                  | bool b2 => simp at hall
                  | int n2 => simp at hall
                  | str s2 => simp at hall
                  | obj kvs2 => simp at hall
                | none =>
                  have hprop2 : alook kvs "properties" = none ∨
                      ∃ pk, alook kvs "properties" = some (.obj pk) := by
                    cases hp : alook kvs "properties" with
                    | none => exact Or.inl rfl
                    | some w =>
                      rw [hp] at hprop
                      cases w with
                      | obj pk => exact Or.inr ⟨pk, rfl⟩
                      | null => simp at hprop
                      | bool b2 => simp at hprop
                      | int n2 => simp at hprop
                      | str s2 => simp at hprop
                      | arr xs2 => simp at hprop
                  have hreq2 : alook kvs "required" = none ∨
                      (∃ names, alook kvs "required" = some (.arr names) ∧
                        names.all (fun nm => match nm with
                          | Value.str _ => true | _ => false) = true) ∨
                      (∃ s2, alook kvs "required" = some (.str s2)) ∨
                      (∃ rk, alook kvs "required" = some (.obj rk)) := by
                    cases hp : alook kvs "required" with
                    | none => exact Or.inl rfl
                    | some w =>
                      rw [hp] at hreq
                      cases w with
                      | arr names => exact Or.inr (Or.inl ⟨names, rfl, hreq⟩)
                      | str s2 => exact Or.inr (Or.inr (Or.inl ⟨s2, rfl⟩))
                      | obj rk => exact Or.inr (Or.inr (Or.inr ⟨rk, rfl⟩))
                      | null => simp at hreq
                      | bool b2 => simp at hreq
                      | int n2 => simp at hreq
                  have hmi2 : alook kvs "minItems" = none ∨
                      (∃ i, alook kvs "minItems" = some (.int i)) ∨
                      (∃ b2, alook kvs "minItems" = some (.bool b2)) := by
                    cases hp : alook kvs "minItems" with
                    | none => exact Or.inl rfl
                    | some w =>
                      rw [hp] at hmi
                      cases w with
                      | int i => exact Or.inr (Or.inl ⟨i, rfl⟩)
                      | bool b2 => exact Or.inr (Or.inr ⟨b2, rfl⟩)
                      | null => simp at hmi
                      | str s2 => simp at hmi
                      | arr xs2 => simp at hmi
                      | obj kvs2 => simp at hmi
                  have hml2 : alook kvs "minLength" = none ∨
                      (∃ i, alook kvs "minLength" = some (.int i)) ∨
                      (∃ b2, alook kvs "minLength" = some (.bool b2)) := by
                    cases hp : alook kvs "minLength" with
                    | none => exact Or.inl rfl
                    | some w =>
                      rw [hp] at hml
                      cases w with
                      | int i => exact Or.inr (Or.inl ⟨i, rfl⟩)
                      | bool b2 => exact Or.inr (Or.inr ⟨b2, rfl⟩)
                      | null => simp at hml
                      | str s2 => simp at hml
                      | arr xs2 => simp at hml
                      | obj kvs2 => simp at hml
                  have hmin2 : alook kvs "minimum" = none ∨
                      (∃ i, alook kvs "minimum" = some (.int i)) ∨
                      (∃ b2, alook kvs "minimum" = some (.bool b2)) := by
                    cases hp : alook kvs "minimum" with
                    | none => exact Or.inl rfl
                    | some w =>
                      rw [hp] at hmin
                      cases w with
                      | int i => exact Or.inr (Or.inl ⟨i, rfl⟩)
                      | bool b2 => exact Or.inr (Or.inr ⟨b2, rfl⟩)
                      | null => simp at hmin
                      | str s2 => simp at hmin
                      | arr xs2 => simp at hmin
                      | obj kvs2 => simp at hmin
                  exact sampleF_dispatch_no_error env n ih b st kvs hpairs
                    hprop2 hreq2 hmi2 hml2 hmin2 hr hcst hen hoo hao hal

/-- C3 counterexample: an empty `enum` list raises `IndexError`
(`schema["enum"][0]`), and so does an empty `anyOf` list (`options[0]`),
while the claim says sampling such malformed nodes never raises; an empty
`oneOf` list does degrade to null as claimed. -/
theorem C3_empty_enum_counterexample :
    sample_from_schema [] (.obj [("enum", .arr [])]) ["d"] 0 emptySt
      = .error .indexError ∧
    sample_from_schema [] (.obj [("anyOf", .arr [])]) ["d"] 0 emptySt
      = .error .indexError ∧
    sample_from_schema [] (.obj [("oneOf", .arr [])]) ["d"] 0 emptySt
      = .ok (.null, emptySt) :=
  ⟨rfl, rfl, rfl⟩

/-- C3 (amended): for schemas whose every object node is well shaped
(`wfShape`: an `enum` that is a non-empty list or non-empty string, a
non-empty-list `anyOf`, list `oneOf`/`allOf`, mapping `properties`,
string-listing `required`, integer bounds) — underspecified nodes included —
and a corpus of such schemas, sampling never raises: every run returns a
value or fails with the one fatal error, a referenced schema file that cannot
be found or parsed.  Outside that class the sampler can raise: an empty
`enum` or empty `anyOf` list is an `IndexError` (see the counterexample),
not a graceful null. -/
theorem C3_failure_semantics (env : SEnv) (s : Value) (b : SPath) (d : Nat)
    (st : St) (henv : wfEnv env = true) (hs : wfS s = true) :
    (∃ r st', sample_from_schema env s b d st = .ok (r, st')) ∨
    (∃ q, sample_from_schema env s b d st = .error (.ioError q)) :=
  sampleF_no_runtime_error env henv (41 - d) s b st hs

/-- C3 witness: a reference to a constant schema in a one-file corpus. -/
theorem C3_failure_semantics_witness :
    (∃ r st', sample_from_schema [(["s", "B.json"], .obj [("const", .int 1)])]
        (.obj [("$ref", .str "B.json")]) ["s"] 0 emptySt = .ok (r, st')) ∨
    (∃ q, sample_from_schema [(["s", "B.json"], .obj [("const", .int 1)])]
        (.obj [("$ref", .str "B.json")]) ["s"] 0 emptySt = .error (.ioError q)) :=
  C3_failure_semantics [(["s", "B.json"], .obj [("const", .int 1)])]
    (.obj [("$ref", .str "B.json")]) ["s"] 0 emptySt rfl rfl
